import Mathlib

/-!
# housecontract: a registry of Owners and Houses on a key-value ledger

A shallow embedding of `cc.go` (package `cc`).  The contract methods are
translated statement by statement; every method threads the chaincode stub
explicitly and returns Go's `(value, error)` pair as an `Except String`.

Two collaborators of `cc.go` live outside the repository and are modelled
here by what the contract can observe of them:

* `encoding/json`: a byte string is identified with what `json.Unmarshal`
  makes of it at the three target types the contract decodes into
  (`*Owner`, `*House`, `*string`);
* the Fabric stub (`shim.ChaincodeStubInterface`): an ordered key-value
  ledger with composite keys, range scans and store calls that may fail.

Logger calls have no effect on results or on the ledger and are left out.
-/

namespace HouseContract

/-! ## Data model (cc.go, lines 15-28) -/

/-- Go's `time.Time` as carried by a House: the instant, named by its
canonical RFC 3339 text.  The contract never inspects it. -/
structure Time where
  rfc3339 : String
deriving DecidableEq, Repr

/-- The zero `time.Time`, what a freshly allocated House holds. -/
def Time.zero : Time := ⟨"0001-01-01T00:00:00Z"⟩

/-- The struct `Owner` of cc.go. -/
structure Owner where
  Id : String
deriving DecidableEq, Repr

/-- The struct `House` of cc.go. -/
structure House where
  Id : String
  Address : String
  OwnerId : String
  Price : String
  Timestamp : Time
deriving DecidableEq, Repr

/-- The constant `prefixOwner` of cc.go. -/
def prefixOwner : String := "Owner"

/-- The constant `prefixHouse` of cc.go. -/
def prefixHouse : String := "House"

deriving instance DecidableEq for Except

/-! ## encoding/json, as the contract observes it -/

/-- Modelled from the spec: the payloads and stored records that Go's
`encoding/json`, which is not part of the repository, encodes and decodes.
A byte string is identified with the result of `json.Unmarshal` on it at each
of the three target types used by cc.go: `new(Owner)`, `new(House)` and a
`*string`. -/
structure Bytes where
  asOwner : Except String Owner
  asHouse : Except String House
  asString : Except String String
deriving DecidableEq

/-- The text of the error `json.Unmarshal` gives for a JSON object decoded
into a Go string. -/
def errObjectIntoString : String :=
  "json: cannot unmarshal object into Go value of type string"

/-- The text of the error `json.Unmarshal` gives for a JSON string decoded
into the struct `Owner`. -/
def errStringIntoOwner : String :=
  "json: cannot unmarshal string into Go value of type cc.Owner"

/-- The text of the error `json.Unmarshal` gives for a JSON string decoded
into the struct `House`. -/
def errStringIntoHouse : String :=
  "json: cannot unmarshal string into Go value of type cc.House"

/-- Modelled from the spec: Go's `json.Marshal(goowner)`, the object with the
single member `Id`; decoding it gives the Owner back (the spec's round trip).
Decoded into a House it fills `Id` and leaves the other fields zero. -/
def jsonMarshalOwner (goowner : Owner) : Except String Bytes :=
  .ok { asOwner := .ok goowner
        asHouse := .ok ⟨goowner.Id, "", "", "", Time.zero⟩
        asString := .error errObjectIntoString }

/-- Modelled from the spec: Go's `json.Marshal(gohouse)`, the object with the
five members of a House; decoding it gives the House back (the spec's round
trip). Decoded into an Owner it fills `Id` and ignores the other members. -/
def jsonMarshalHouse (gohouse : House) : Except String Bytes :=
  .ok { asOwner := .ok ⟨gohouse.Id⟩
        asHouse := .ok gohouse
        asString := .error errObjectIntoString }

/-- The bytes of a JSON string literal, such as the test argument
`"Alice"` with its quotes. -/
def jsonString (s : String) : Bytes :=
  { asOwner := .error errStringIntoOwner
    asHouse := .error errStringIntoHouse
    asString := .ok s }

/-- Go's `json.Unmarshal(bytes, goowner)` with `goowner := new(Owner)`. -/
def jsonUnmarshalOwner (bytes : Bytes) : Except String Owner := bytes.asOwner

/-- Go's `json.Unmarshal(bytes, gohouse)` with `gohouse := new(House)`. -/
def jsonUnmarshalHouse (bytes : Bytes) : Except String House := bytes.asHouse

/-- Go's `json.Unmarshal(bytes, &s)` with `var s string`. -/
def jsonUnmarshalString (bytes : Bytes) : Except String String := bytes.asString

/-! ## The chaincode stub -/

/-- The store calls a contract method makes on the stub. -/
inductive StoreCall where
  | getState (key : String)
  | putState (key : String)
  | getStateByPartialCompositeKey (objectType : String)
deriving DecidableEq, Repr

/-- Modelled from the spec: the Fabric stub handed to every method, which
the repository calls but does not contain. It is the ledger as a list of
key-value pairs, and the store calls that fail in this transaction with the
error each one returns. -/
structure Stub where
  State : List (String × Bytes)
  faults : List (StoreCall × String)
deriving DecidableEq

/-- The stub of a fresh ledger whose store calls all succeed. -/
def Stub.empty : Stub := ⟨[], []⟩

/-- A contract method: it runs on a stub and returns Go's `(value, error)`
together with the stub it leaves behind, also when it returns an error. -/
def CC (α : Type) : Type := Stub → Except String α × Stub

/-- Return a value: `return v, nil`. -/
def CC.pure {α : Type} (a : α) : CC α := fun stub => (.ok a, stub)

/-- Return an error: `return err`. -/
def CC.fail {α : Type} (err : String) : CC α := fun stub => (.error err, stub)

/-- Sequence two steps; `if err != nil { return err }` after the first. -/
def CC.bind {α β : Type} (m : CC α) (f : α → CC β) : CC β := fun stub =>
  match m stub with
  | (.ok a, stub1) => f a stub1
  | (.error err, stub1) => (.error err, stub1)

instance : Monad CC where
  pure := CC.pure
  bind := CC.bind

/-- A call that does not touch the stub, such as `json.Marshal`. -/
def CC.lift {α : Type} (r : Except String α) : CC α := fun stub => (r, stub)

/-- U+0000, the separator of composite keys. -/
def minUnicodeRuneValue : Char := Char.ofNat 0

/-- U+10FFFF, the upper end of a partial-key scan. -/
def maxUnicodeRuneValue : Char := Char.ofNat 0x10FFFF

/-- The text of the error the stub gives for an attribute that holds
U+0000 or U+10FFFF. -/
def errCompositeKeyAttribute : String :=
  "U+0000 and U+10FFFF are not allowed in the input attribute of a composite key"

/-- The stub's `validateCompositeKeyAttribute`: no rune of the attribute is
U+0000 or U+10FFFF. -/
def validateCompositeKeyAttribute (str : String) : Except String Unit :=
  if str.data.any (fun r => r == minUnicodeRuneValue || r == maxUnicodeRuneValue) then
    .error errCompositeKeyAttribute
  else
    .ok ()

/-- The attributes of a composite key, each followed by U+0000. -/
def compositeKeyAttributes : List String → Except String (List Char)
  | [] => .ok []
  | att :: rest =>
    match validateCompositeKeyAttribute att with
    | .error err => .error err
    | .ok () =>
      match compositeKeyAttributes rest with
      | .error err => .error err
      | .ok ck => .ok (att.data ++ minUnicodeRuneValue :: ck)

/-- Modelled from the spec: the key builder `stub.CreateCompositeKey` of the
Fabric shim, which the repository calls but does not contain. The spec's
`prefix || entity-type-marker || component-strings` is laid out as U+0000, the
object type, U+0000, then every attribute followed by U+0000; an object type
or attribute holding U+0000 or U+10FFFF is refused with an error. -/
def createCompositeKey (objectType : String) (attributes : List String) :
    Except String String :=
  match validateCompositeKeyAttribute objectType with
  | .error err => .error err
  | .ok () =>
    match compositeKeyAttributes attributes with
    | .error err => .error err
    | .ok ck => .ok ⟨minUnicodeRuneValue :: objectType.data ++ minUnicodeRuneValue :: ck⟩

/-- The error, if any, with which the given store call fails on this stub. -/
def Stub.fault (stub : Stub) (call : StoreCall) : Option String :=
  stub.faults.lookup call

/-- Write a pair into a ledger kept in key order (keys compare rune by rune,
which on UTF-8 text is the byte order the ledger uses): overwrite the pair
with the same key, or insert before the first greater key. -/
def insertKV (key : String) (value : Bytes) :
    List (String × Bytes) → List (String × Bytes)
  | [] => [(key, value)]
  | (k, v) :: rest =>
    if key = k then (key, value) :: rest
    else if key.data < k.data then (key, value) :: (k, v) :: rest
    else (k, v) :: insertKV key value rest

/-- The method `stub.CreateCompositeKey`. -/
def CreateCompositeKey (objectType : String) (attributes : List String) : CC String :=
  CC.lift (createCompositeKey objectType attributes)

/-- Modelled from the spec: the method `stub.GetState`, the spec's `Get`. It
returns the bytes under the key, `none` for Go's nil when nothing is stored
there, or the error of a failing store call. -/
def GetState (key : String) : CC (Option Bytes) := fun stub =>
  match stub.fault (.getState key) with
  | some err => (.error err, stub)
  | none => (.ok (stub.State.lookup key), stub)

/-- Modelled from the spec: the method `stub.PutState`, the spec's `Put`, an
unconditional upsert; a failed call writes nothing. -/
def PutState (key : String) (value : Bytes) : CC Unit := fun stub =>
  match stub.fault (.putState key) with
  | some err => (.error err, stub)
  | none => (.ok (), { stub with State := insertKV key value stub.State })

/-- Modelled from the spec: the method `stub.GetStateByPartialCompositeKey`,
the spec's `ScanByPrefix`. It returns the pairs whose key lies between the
partial key and the partial key followed by U+10FFFF, in ledger order. -/
def GetStateByPartialCompositeKey (objectType : String) (attributes : List String) :
    CC (List (String × Bytes)) := fun stub =>
  match createCompositeKey objectType attributes with
  | .error err => (.error err, stub)
  | .ok startKey =>
    match stub.fault (.getStateByPartialCompositeKey objectType) with
    | some err => (.error err, stub)
    | none =>
      let endKey : String := ⟨startKey.data ++ [maxUnicodeRuneValue]⟩
      (.ok (stub.State.filter
        (fun kv => decide (¬ kv.1.data < startKey.data) && decide (kv.1.data < endKey.data))),
        stub)

/-! ## cc.go -/

/-- The function `checkLen` (cc.go, lines 48-59). -/
def checkLen (expected : Nat) (args : List Bytes) : Except String Unit :=
  if args.length < expected then
    let mes := "not enough number of arguments: " ++ toString args.length ++ " given, "
      ++ toString expected ++ " expected"
    .error mes
  else
    .ok ()

/-- The method `CheckOwner` (cc.go, lines 267-288). -/
def CheckOwner (id : String) : CC Bool := do
  let key ← CreateCompositeKey prefixOwner [id]
  let jsonBytes ← GetState key
  return jsonBytes.isSome

/-- The message of `AddOwner` for an Owner that is already stored. -/
def mesOwnerAlreadyExists (id : String) : String :=
  "an Owner with Id = " ++ id ++ " alerady exists"

/-- The method `AddOwner` (cc.go, lines 230-265). -/
def AddOwner (goowner : Owner) : CC Unit := do
  let found ← CheckOwner goowner.Id
  if found then
    CC.fail (mesOwnerAlreadyExists goowner.Id)
  else
    let jsonowner ← CC.lift (jsonMarshalOwner goowner)
    let key ← CreateCompositeKey prefixOwner [goowner.Id]
    PutState key jsonowner

/-- The loop of `ListOwners` over the iterator (cc.go, lines 308-322). -/
def ListOwners.loop (goowners : List Owner) : List (String × Bytes) → Except String (List Owner)
  | [] => .ok goowners
  | kv :: iter =>
    match jsonUnmarshalOwner kv.2 with
    | .error err => .error err
    | .ok goowner => ListOwners.loop (goowners ++ [goowner]) iter

/-- The method `ListOwners` (cc.go, lines 291-327). -/
def ListOwners : CC (List Owner) := do
  let iter ← GetStateByPartialCompositeKey prefixOwner []
  CC.lift (ListOwners.loop [] iter)

/-- The method `CheckHouse` (cc.go, lines 377-395). -/
def CheckHouse (id : String) : CC Bool := do
  let key ← CreateCompositeKey prefixHouse [id]
  let jsonBytes ← GetState key
  return jsonBytes.isSome

/-- The method `ValidateHouse` (cc.go, lines 397-409). -/
def ValidateHouse (gohouse : House) : CC Bool := do
  let found ← CheckOwner gohouse.OwnerId
  return found

/-- The message of `AddHouse` for a House that is already stored. -/
def mesHouseAlreadyExists (id : String) : String :=
  "House with Id = " ++ id ++ " already exists"

/-- The message of `AddHouse` and `UpdateHouse` for a House that fails
`ValidateHouse`. -/
def mesValidationFailed : String := "Validation of the House failed"

/-- The message of `GetHouse` for a House that is not stored. -/
def mesHouseNotFound (id : String) : String :=
  "House with Id = " ++ id ++ " was not found"

/-- The message of `UpdateHouse` for a House that is not stored. -/
def mesHouseDoesNotExist (id : String) : String :=
  "House with Id = " ++ id ++ " does not exist"

/-- The method `AddHouse` (cc.go, lines 329-375). -/
def AddHouse (gohouse : House) : CC Unit := do
  let key ← CreateCompositeKey prefixHouse [gohouse.Id]
  let found ← CheckHouse gohouse.Id
  if found then
    CC.fail (mesHouseAlreadyExists gohouse.Id)
  else
    let ok ← ValidateHouse gohouse
    if !ok then
      CC.fail mesValidationFailed
    else
      let jsonhouse ← CC.lift (jsonMarshalHouse gohouse)
      PutState key jsonhouse

/-- The method `GetHouse` (cc.go, lines 411-441). -/
def GetHouse (id : String) : CC House := do
  let key ← CreateCompositeKey prefixHouse [id]
  let jsonBytes ← GetState key
  match jsonBytes with
  | none => CC.fail (mesHouseNotFound id)
  | some bytes => CC.lift (jsonUnmarshalHouse bytes)

/-- The method `UpdateHouse` (cc.go, lines 443-489). -/
def UpdateHouse (gohouse : House) : CC Unit := do
  let found ← CheckHouse gohouse.Id
  if !found then
    CC.fail (mesHouseDoesNotExist gohouse.Id)
  else
    let ok ← ValidateHouse gohouse
    if !ok then
      CC.fail mesValidationFailed
    else
      let key ← CreateCompositeKey prefixHouse [gohouse.Id]
      let jsonhouse ← CC.lift (jsonMarshalHouse gohouse)
      PutState key jsonhouse

/-- The loop of `ListHouses` over the iterator (cc.go, lines 505-518). -/
def ListHouses.loop (gohouses : List House) : List (String × Bytes) → Except String (List House)
  | [] => .ok gohouses
  | kv :: iter =>
    match jsonUnmarshalHouse kv.2 with
    | .error err => .error err
    | .ok gohouse => ListHouses.loop (gohouses ++ [gohouse]) iter

/-- The method `ListHouses` (cc.go, lines 491-522). -/
def ListHouses : CC (List House) := do
  let iter ← GetStateByPartialCompositeKey prefixHouse []
  CC.lift (ListHouses.loop [] iter)

/-- Go's `strings.Index` from a byte offset on: the byte index of the first
occurrence of `substr` at or after the offset, or -1. -/
def stringsIndexFrom (substr : List Char) : List Char → Nat → Int
  | [], pos => if substr.isPrefixOf [] then (pos : Int) else -1
  | c :: s, pos =>
    if substr.isPrefixOf (c :: s) then (pos : Int)
    else stringsIndexFrom substr s (pos + c.utf8Size)

/-- Go's `strings.Index(s, substr)`. -/
def stringsIndex (s substr : String) : Int := stringsIndexFrom substr.data s.data 0

/-- The loop of `ListOwnerIdHouses` over the iterator (cc.go, lines 541-560). -/
def ListOwnerIdHouses.loop (ownerId : String) (gohouses : List House) :
    List (String × Bytes) → Except String (List House)
  | [] => .ok gohouses
  | kv :: iter =>
    match jsonUnmarshalHouse kv.2 with
    | .error err => .error err
    | .ok gohouse =>
      if stringsIndex ownerId "admin" ≠ -1 then
        ListOwnerIdHouses.loop ownerId (gohouses ++ [gohouse]) iter
      else if gohouse.OwnerId = ownerId then
        ListOwnerIdHouses.loop ownerId (gohouses ++ [gohouse]) iter
      else
        ListOwnerIdHouses.loop ownerId gohouses iter

/-- The method `ListOwnerIdHouses` (cc.go, lines 524-564). -/
def ListOwnerIdHouses (ownerId : String) : CC (List House) := do
  let iter ← GetStateByPartialCompositeKey prefixHouse []
  CC.lift (ListOwnerIdHouses.loop ownerId [] iter)

/-- The method `TransferHouse` (cc.go, lines 566-585). -/
def TransferHouse (houseId newownerId : String) : CC Unit := do
  let gohouse ← GetHouse houseId
  let gohouse := { gohouse with OwnerId := newownerId }
  UpdateHouse gohouse

/-! ## Invoke (cc.go, lines 67-228) -/

/-- The payload of a response: empty, or the output of `json.Marshal` on
the value a query returned. -/
inductive Payload where
  | empty
  | owners (goowners : List Owner)
  | houses (gohouses : List House)
  | house (gohouse : House)
deriving DecidableEq, Repr

/-- The `pb.Response` built by `shim.Success` or `shim.Error`. -/
inductive Response where
  | Success (payload : Payload)
  | Error (msg : String)
deriving DecidableEq, Repr

/-- How a call of `Invoke` ends: it returns a response, or the Go runtime
panics. -/
inductive Outcome where
  | returned (res : Response)
  | panicked (msg : String)
deriving DecidableEq, Repr

/-- The Go runtime error for `args[i]` beyond the length of `args`. -/
def indexOutOfRange (i : Nat) (args : List Bytes) : Outcome :=
  .panicked ("runtime error: index out of range [" ++ toString i ++ "] with length "
    ++ toString args.length)

/-- The case "AddOwner" of `Invoke`. -/
def Invoke.addOwner (args : List Bytes) (stub : Stub) : Outcome × Stub :=
  match checkLen 1 args with
  | .error err => (.returned (.Error err), stub)
  | .ok () =>
    match args[0]? with
    | none => (indexOutOfRange 0 args, stub)
    | some arg0 =>
      match jsonUnmarshalOwner arg0 with
      | .error err => (.returned (.Error err), stub)
      | .ok goowner =>
        match AddOwner goowner stub with
        | (.error err, stub1) => (.returned (.Error err), stub1)
        | (.ok (), stub1) => (.returned (.Success .empty), stub1)

/-- The case "ListOwners" of `Invoke`. -/
def Invoke.listOwners (stub : Stub) : Outcome × Stub :=
  match ListOwners stub with
  | (.error err, stub1) => (.returned (.Error err), stub1)
  | (.ok goowners, stub1) => (.returned (.Success (.owners goowners)), stub1)

/-- The case "AddHouse" of `Invoke`. -/
def Invoke.addHouse (args : List Bytes) (stub : Stub) : Outcome × Stub :=
  match checkLen 1 args with
  | .error err => (.returned (.Error err), stub)
  | .ok () =>
    match args[0]? with
    | none => (indexOutOfRange 0 args, stub)
    | some arg0 =>
      match jsonUnmarshalHouse arg0 with
      | .error err => (.returned (.Error err), stub)
      | .ok gohouse =>
        match AddHouse gohouse stub with
        | (.error err, stub1) => (.returned (.Error err), stub1)
        | (.ok (), stub1) => (.returned (.Success .empty), stub1)

/-- The case "ListHouses" of `Invoke`. -/
def Invoke.listHouses (stub : Stub) : Outcome × Stub :=
  match ListHouses stub with
  | (.error err, stub1) => (.returned (.Error err), stub1)
  | (.ok gohouses, stub1) => (.returned (.Success (.houses gohouses)), stub1)

/-- The case "ListOwnerIdHouses" of `Invoke`: `args[0]` is read without a
call of `checkLen`. -/
def Invoke.listOwnerIdHouses (args : List Bytes) (stub : Stub) : Outcome × Stub :=
  match args[0]? with
  | none => (indexOutOfRange 0 args, stub)
  | some arg0 =>
    match jsonUnmarshalString arg0 with
    | .error err => (.returned (.Error err), stub)
    | .ok ownerId =>
      match ListOwnerIdHouses ownerId stub with
      | (.error err, stub1) => (.returned (.Error err), stub1)
      | (.ok gohouses, stub1) => (.returned (.Success (.houses gohouses)), stub1)

/-- The case "GetHouse" of `Invoke`. -/
def Invoke.getHouse (args : List Bytes) (stub : Stub) : Outcome × Stub :=
  match checkLen 1 args with
  | .error err => (.returned (.Error err), stub)
  | .ok () =>
    match args[0]? with
    | none => (indexOutOfRange 0 args, stub)
    | some arg0 =>
      match jsonUnmarshalString arg0 with
      | .error err => (.returned (.Error err), stub)
      | .ok houseId =>
        match GetHouse houseId stub with
        | (.error err, stub1) => (.returned (.Error err), stub1)
        | (.ok gohouse, stub1) => (.returned (.Success (.house gohouse)), stub1)

/-- The case "UpdateHouse" of `Invoke`. -/
def Invoke.updateHouse (args : List Bytes) (stub : Stub) : Outcome × Stub :=
  match checkLen 1 args with
  | .error err => (.returned (.Error err), stub)
  | .ok () =>
    match args[0]? with
    | none => (indexOutOfRange 0 args, stub)
    | some arg0 =>
      match jsonUnmarshalHouse arg0 with
      | .error err => (.returned (.Error err), stub)
      | .ok gohouse =>
        match UpdateHouse gohouse stub with
        | (.error err, stub1) => (.returned (.Error err), stub1)
        | (.ok (), stub1) => (.returned (.Success .empty), stub1)

/-- The case "TransferHouse" of `Invoke`. -/
def Invoke.transferHouse (args : List Bytes) (stub : Stub) : Outcome × Stub :=
  match checkLen 2 args with
  | .error err => (.returned (.Error err), stub)
  | .ok () =>
    match args[0]? with
    | none => (indexOutOfRange 0 args, stub)
    | some arg0 =>
      match jsonUnmarshalString arg0 with
      | .error err => (.returned (.Error err), stub)
      | .ok houseId =>
        match args[1]? with
        | none => (indexOutOfRange 1 args, stub)
        | some arg1 =>
          match jsonUnmarshalString arg1 with
          | .error err => (.returned (.Error err), stub)
          | .ok newownerId =>
            match TransferHouse houseId newownerId stub with
            | (.error err, stub1) => (.returned (.Error err), stub1)
            | (.ok (), stub1) => (.returned (.Success .empty), stub1)

/-- The method `Invoke`: the switch on the function name. -/
def Invoke (function : String) (args : List Bytes) (stub : Stub) : Outcome × Stub :=
  if function = "AddOwner" then Invoke.addOwner args stub
  else if function = "ListOwners" then Invoke.listOwners stub
  else if function = "AddHouse" then Invoke.addHouse args stub
  else if function = "ListHouses" then Invoke.listHouses stub
  else if function = "ListOwnerIdHouses" then Invoke.listOwnerIdHouses args stub
  else if function = "GetHouse" then Invoke.getHouse args stub
  else if function = "UpdateHouse" then Invoke.updateHouse args stub
  else if function = "TransferHouse" then Invoke.transferHouse args stub
  else (.returned (.Error ("Unknown method: " ++ function)), stub)

/-! ## Notions the statements use -/

/-- The composite key of an Owner id, when the stub can build it. -/
def ownerKey (id : String) : Except String String := createCompositeKey prefixOwner [id]

/-- The composite key of a House id, when the stub can build it. -/
def houseKey (id : String) : Except String String := createCompositeKey prefixHouse [id]

/-- The registry operations that write to the ledger. -/
inductive Op where
  | addOwner (goowner : Owner)
  | addHouse (gohouse : House)
  | updateHouse (gohouse : House)
  | transferHouse (houseId newownerId : String)
deriving DecidableEq, Repr

/-- Run one registry operation. -/
def Op.run : Op → CC Unit
  | .addOwner goowner => AddOwner goowner
  | .addHouse gohouse => AddHouse gohouse
  | .updateHouse gohouse => UpdateHouse gohouse
  | .transferHouse houseId newownerId => TransferHouse houseId newownerId

/-- The stub after a sequence of registry operations, whether each one
succeeds or fails. -/
def runOps : List Op → Stub → Stub
  | [], stub => stub
  | op :: ops, stub => runOps ops (op.run stub).2

/-- A stub reachable from the empty ledger through the registry operations,
under any set of failing store calls. -/
def Reachable (stub : Stub) : Prop :=
  ∃ ops : List Op, stub = runOps ops ⟨[], stub.faults⟩

/-- Key/record consistency with referential integrity: every pair of the
ledger is an encoded Owner under the Owner key of its Id, or an encoded
House under the House key of its Id whose OwnerId passes `CheckOwner`. -/
def Consistent (stub : Stub) : Prop :=
  ∀ kv ∈ stub.State,
    (∃ goowner : Owner, ownerKey goowner.Id = .ok kv.1 ∧ jsonMarshalOwner goowner = .ok kv.2) ∨
    (∃ gohouse : House, houseKey gohouse.Id = .ok kv.1 ∧ jsonMarshalHouse gohouse = .ok kv.2 ∧
      (CheckOwner gohouse.OwnerId stub).1 = .ok true)

/-! ## The fixtures of cc_test.go -/

/-- The Owner of the test constant `alice`. -/
def alice : Owner := ⟨"Alice"⟩

/-- The Owner of the test constant `bob`. -/
def bob : Owner := ⟨"Bob"⟩

/-- The instant of the test constant `timestamp`. -/
def timestamp : Time := ⟨"2018-01-01T12:34:56Z"⟩

/-- The House of the test constant `house1`. -/
def house1 : House := ⟨"1", "seoul", "Alice", "3000", timestamp⟩

/-- The House of the test constant `house1b`: house1 owned by Bob. -/
def house1b : House := ⟨"1", "seoul", "Bob", "3000", timestamp⟩

/-- The House of the test constant `house2`. -/
def house2 : House := ⟨"2", "bucheon", "Alice", "2000", timestamp⟩

/-- The ledger of TestTransferHouse_NG2: Alice, and house1 owned by her. -/
def stubAliceHouse1 : Stub := runOps [.addOwner alice, .addHouse house1] Stub.empty

/-- The ledger of TestTransferHouse_OK1 before the transfer: Alice, Bob,
and house1 owned by Alice. -/
def stubAliceBobHouse1 : Stub :=
  runOps [.addOwner alice, .addOwner bob, .addHouse house1] Stub.empty

/-- The House house1 rebuilt: same Id and owner, every other field new. -/
def houseRebuilt : House := ⟨"1", "busan", "Alice", "9999", ⟨"2020-02-02T00:00:00Z"⟩⟩

/-- The ledger holds its keys in strictly ascending order, rune by rune. -/
def KeysAscending (state : List (String × Bytes)) : Prop :=
  state.Pairwise (fun a b => a.1.data < b.1.data)

/-- The Owners whose `AddOwner` succeeded along a run of registry
operations, in the order of the calls. -/
def addedOwners : List Op → Stub → List Owner
  | [], _ => []
  | op :: ops, stub =>
    match op with
    | .addOwner goowner =>
      if (AddOwner goowner stub).1 = .ok () then
        goowner :: addedOwners ops (op.run stub).2
      else
        addedOwners ops (op.run stub).2
    | _ => addedOwners ops (op.run stub).2

/-- The Owner whose Id is the empty string, as `{"Id":""}` or `{}` decodes. -/
def nobody : Owner := ⟨""⟩

/-- The ledger of TestListHouses_OK2 with the calls in another order: Bob
before Alice, house2 before house1. -/
def stubReordered : Stub :=
  runOps [.addOwner bob, .addOwner alice, .addHouse house2, .addHouse house1] Stub.empty

/-- The ledger of TestListHouses_OK2 with Bob added: Alice, Bob, house1 and
house2 in the order of the tests. -/
def stubInOrder : Stub :=
  runOps [.addOwner alice, .addOwner bob, .addHouse house1, .addHouse house2] Stub.empty

/-- The queries of the registry, which only read the ledger. -/
inductive Query where
  | checkOwner (id : String)
  | checkHouse (id : String)
  | validateHouse (gohouse : House)
  | getHouse (id : String)
  | listOwners
  | listHouses
  | listOwnerIdHouses (ownerId : String)
deriving DecidableEq, Repr

/-- The stub a query leaves behind. -/
def Query.after : Query → Stub → Stub
  | .checkOwner id, stub => (CheckOwner id stub).2
  | .checkHouse id, stub => (CheckHouse id stub).2
  | .validateHouse gohouse, stub => (ValidateHouse gohouse stub).2
  | .getHouse id, stub => (GetHouse id stub).2
  | .listOwners, stub => (ListOwners stub).2
  | .listHouses, stub => (ListHouses stub).2
  | .listOwnerIdHouses ownerId, stub => (ListOwnerIdHouses ownerId stub).2

/-! ## Running a method step by step -/

theorem bind_run {α β : Type} (m : CC α) (f : α → CC β) (stub : Stub) :
    (m >>= f) stub =
      match m stub with
      | (.ok a, stub1) => f a stub1
      | (.error err, stub1) => (.error err, stub1) := rfl

theorem pure_run {α : Type} (a : α) (stub : Stub) :
    (pure a : CC α) stub = (.ok a, stub) := rfl

theorem createCompositeKey_run (objectType : String) (attributes : List String) (stub : Stub) :
    CreateCompositeKey objectType attributes stub
      = (createCompositeKey objectType attributes, stub) := rfl

theorem getState_snd (key : String) (stub : Stub) : (GetState key stub).2 = stub := by
  unfold GetState
  split <;> rfl

/-- What `CheckOwner` and `CheckHouse` compute: build the key, read it, and
report whether bytes came back. -/
theorem checkOwner_run (id : String) (stub : Stub) :
    CheckOwner id stub =
      (match ownerKey id with
        | .error err => .error err
        | .ok key =>
          match stub.fault (.getState key) with
          | some err => .error err
          | none => .ok (stub.State.lookup key).isSome, stub) := by
  simp only [CheckOwner, bind_run, createCompositeKey_run, ownerKey, GetState, pure_run]
  cases createCompositeKey prefixOwner [id] with
  | error err => rfl
  | ok key =>
    simp only
    cases stub.fault (.getState key) <;> rfl

theorem checkHouse_run (id : String) (stub : Stub) :
    CheckHouse id stub =
      (match houseKey id with
        | .error err => .error err
        | .ok key =>
          match stub.fault (.getState key) with
          | some err => .error err
          | none => .ok (stub.State.lookup key).isSome, stub) := by
  simp only [CheckHouse, bind_run, createCompositeKey_run, houseKey, GetState, pure_run]
  cases createCompositeKey prefixHouse [id] with
  | error err => rfl
  | ok key =>
    simp only
    cases stub.fault (.getState key) <;> rfl

theorem checkOwner_snd (id : String) (stub : Stub) : (CheckOwner id stub).2 = stub := by
  rw [checkOwner_run]

theorem checkHouse_snd (id : String) (stub : Stub) : (CheckHouse id stub).2 = stub := by
  rw [checkHouse_run]

theorem checkOwner_eq (id : String) (stub : Stub) :
    CheckOwner id stub = ((CheckOwner id stub).1, stub) :=
  Prod.ext rfl (checkOwner_snd id stub)

theorem checkHouse_eq (id : String) (stub : Stub) :
    CheckHouse id stub = ((CheckHouse id stub).1, stub) :=
  Prod.ext rfl (checkHouse_snd id stub)

/-- The method `AddOwner`, one branch per exit of the Go method. -/
theorem addOwner_run (goowner : Owner) (stub : Stub) :
    AddOwner goowner stub =
      match (CheckOwner goowner.Id stub).1 with
      | .error err => (.error err, stub)
      | .ok true => (.error (mesOwnerAlreadyExists goowner.Id), stub)
      | .ok false =>
        match jsonMarshalOwner goowner with
        | .error err => (.error err, stub)
        | .ok jsonowner =>
          match ownerKey goowner.Id with
          | .error err => (.error err, stub)
          | .ok key =>
            match stub.fault (.putState key) with
            | some err => (.error err, stub)
            | none => (.ok (), { stub with State := insertKV key jsonowner stub.State }) := by
  simp only [AddOwner, bind_run]
  rw [checkOwner_eq]
  cases (CheckOwner goowner.Id stub).1 with
  | error err => rfl
  | ok found =>
    cases found with
    | true => rfl
    | false =>
      simp only [Bool.false_eq_true, if_false, bind_run, CC.lift, createCompositeKey_run,
        PutState, jsonMarshalOwner, ownerKey]
      cases createCompositeKey prefixOwner [goowner.Id] with
      | error err => rfl
      | ok key => simp only []

theorem validateHouse_run (gohouse : House) (stub : Stub) :
    ValidateHouse gohouse stub = ((CheckOwner gohouse.OwnerId stub).1, stub) := by
  simp only [ValidateHouse, bind_run, pure_run]
  rw [checkOwner_eq]
  cases (CheckOwner gohouse.OwnerId stub).1 <;> rfl

/-- The method `AddHouse`, one branch per exit of the Go method. -/
theorem addHouse_run (gohouse : House) (stub : Stub) :
    AddHouse gohouse stub =
      match houseKey gohouse.Id with
      | .error err => (.error err, stub)
      | .ok key =>
        match (CheckHouse gohouse.Id stub).1 with
        | .error err => (.error err, stub)
        | .ok true => (.error (mesHouseAlreadyExists gohouse.Id), stub)
        | .ok false =>
          match (CheckOwner gohouse.OwnerId stub).1 with
          | .error err => (.error err, stub)
          | .ok false => (.error mesValidationFailed, stub)
          | .ok true =>
            match jsonMarshalHouse gohouse with
            | .error err => (.error err, stub)
            | .ok jsonhouse =>
              match stub.fault (.putState key) with
              | some err => (.error err, stub)
              | none => (.ok (), { stub with State := insertKV key jsonhouse stub.State }) := by
  simp only [AddHouse, bind_run, createCompositeKey_run, houseKey]
  cases createCompositeKey prefixHouse [gohouse.Id] with
  | error err => rfl
  | ok key =>
    simp only []
    rw [checkHouse_eq]
    cases (CheckHouse gohouse.Id stub).1 with
    | error err => rfl
    | ok found =>
      cases found with
      | true => rfl
      | false =>
        simp only [Bool.false_eq_true, if_false, bind_run, validateHouse_run]
        cases (CheckOwner gohouse.OwnerId stub).1 with
        | error err => rfl
        | ok ok =>
          cases ok with
          | false => rfl
          | true =>
            simp only [Bool.not_true, Bool.false_eq_true, if_false, bind_run, CC.lift,
              PutState, jsonMarshalHouse]

/-- The method `GetHouse`, one branch per exit of the Go method. -/
theorem getHouse_run (id : String) (stub : Stub) :
    GetHouse id stub =
      match houseKey id with
      | .error err => (.error err, stub)
      | .ok key =>
        match stub.fault (.getState key) with
        | some err => (.error err, stub)
        | none =>
          match stub.State.lookup key with
          | none => (.error (mesHouseNotFound id), stub)
          | some bytes => (jsonUnmarshalHouse bytes, stub) := by
  simp only [GetHouse, bind_run, createCompositeKey_run, houseKey, GetState]
  cases createCompositeKey prefixHouse [id] with
  | error err => rfl
  | ok key =>
    simp only []
    cases stub.fault (.getState key) with
    | some err => rfl
    | none =>
      simp only []
      cases stub.State.lookup key <;> rfl

/-- The method `UpdateHouse`, one branch per exit of the Go method. -/
theorem updateHouse_run (gohouse : House) (stub : Stub) :
    UpdateHouse gohouse stub =
      match (CheckHouse gohouse.Id stub).1 with
      | .error err => (.error err, stub)
      | .ok false => (.error (mesHouseDoesNotExist gohouse.Id), stub)
      | .ok true =>
        match (CheckOwner gohouse.OwnerId stub).1 with
        | .error err => (.error err, stub)
        | .ok false => (.error mesValidationFailed, stub)
        | .ok true =>
          match houseKey gohouse.Id with
          | .error err => (.error err, stub)
          | .ok key =>
            match jsonMarshalHouse gohouse with
            | .error err => (.error err, stub)
            | .ok jsonhouse =>
              match stub.fault (.putState key) with
              | some err => (.error err, stub)
              | none => (.ok (), { stub with State := insertKV key jsonhouse stub.State }) := by
  simp only [UpdateHouse, bind_run]
  rw [checkHouse_eq]
  cases (CheckHouse gohouse.Id stub).1 with
  | error err => rfl
  | ok found =>
    cases found with
    | false => rfl
    | true =>
      simp only [Bool.not_true, Bool.false_eq_true, if_false, bind_run, validateHouse_run]
      cases (CheckOwner gohouse.OwnerId stub).1 with
      | error err => rfl
      | ok ok =>
        cases ok with
        | false => rfl
        | true =>
          simp only [Bool.not_true, Bool.false_eq_true, if_false, bind_run, CC.lift,
            createCompositeKey_run, PutState, jsonMarshalHouse, houseKey]
          cases createCompositeKey prefixHouse [gohouse.Id] with
          | error err => rfl
          | ok key => simp only []

theorem getHouse_snd (id : String) (stub : Stub) : (GetHouse id stub).2 = stub := by
  rw [getHouse_run]
  repeat' split
  all_goals rfl

/-- The method `TransferHouse`: read the House, set its owner, hand it to `UpdateHouse`. -/
theorem transferHouse_run (houseId newownerId : String) (stub : Stub) :
    TransferHouse houseId newownerId stub =
      match (GetHouse houseId stub).1 with
      | .error err => (.error err, stub)
      | .ok gohouse => UpdateHouse { gohouse with OwnerId := newownerId } stub := by
  simp only [TransferHouse, bind_run]
  rw [show GetHouse houseId stub = ((GetHouse houseId stub).1, stub) from
    Prod.ext rfl (getHouse_snd houseId stub)]
  cases (GetHouse houseId stub).1 <;> rfl

theorem addOwner_error_snd (goowner : Owner) (stub : Stub) (err : String)
    (h : (AddOwner goowner stub).1 = .error err) : (AddOwner goowner stub).2 = stub := by
  rw [addOwner_run] at h ⊢
  repeat' split
  all_goals first | rfl | simp_all

theorem addHouse_error_snd (gohouse : House) (stub : Stub) (err : String)
    (h : (AddHouse gohouse stub).1 = .error err) : (AddHouse gohouse stub).2 = stub := by
  rw [addHouse_run] at h ⊢
  repeat' split
  all_goals first | rfl | simp_all

theorem updateHouse_error_snd (gohouse : House) (stub : Stub) (err : String)
    (h : (UpdateHouse gohouse stub).1 = .error err) : (UpdateHouse gohouse stub).2 = stub := by
  rw [updateHouse_run] at h ⊢
  repeat' split
  all_goals first | rfl | simp_all

theorem transferHouse_error_snd (houseId newownerId : String) (stub : Stub) (err : String)
    (h : (TransferHouse houseId newownerId stub).1 = .error err) :
    (TransferHouse houseId newownerId stub).2 = stub := by
  rw [transferHouse_run] at h ⊢
  split
  · rfl
  · rename_i gohouse hget
    rw [hget] at h
    exact updateHouse_error_snd _ stub err h

theorem op_error_snd (op : Op) (stub : Stub) (err : String)
    (h : (op.run stub).1 = .error err) : (op.run stub).2 = stub := by
  cases op with
  | addOwner goowner => exact addOwner_error_snd goowner stub err h
  | addHouse gohouse => exact addHouse_error_snd gohouse stub err h
  | updateHouse gohouse => exact updateHouse_error_snd gohouse stub err h
  | transferHouse houseId newownerId => exact transferHouse_error_snd houseId newownerId stub err h

/-! ## The ledger as a list of pairs -/

theorem lookup_insertKV_self (key : String) (value : Bytes) (l : List (String × Bytes)) :
    (insertKV key value l).lookup key = some value := by
  induction l with
  | nil => simp [insertKV, List.lookup]
  | cons kv rest ih =>
    obtain ⟨k, v⟩ := kv
    unfold insertKV
    split_ifs with h1 h2
    · simp [List.lookup]
    · simp [List.lookup]
    · have : (key == k) = false := by simpa using h1
      simp [List.lookup, this, ih]

theorem lookup_insertKV_ne (key key1 : String) (value : Bytes) (l : List (String × Bytes))
    (h : key1 ≠ key) : (insertKV key value l).lookup key1 = l.lookup key1 := by
  have hb : (key1 == key) = false := by simpa using h
  induction l with
  | nil => simp [insertKV, List.lookup, hb]
  | cons kv rest ih =>
    obtain ⟨k, v⟩ := kv
    unfold insertKV
    split_ifs with h1 h2
    · subst h1
      simp [List.lookup, hb]
    · simp [List.lookup, hb]
    · simp only [List.lookup, ih]

theorem mem_of_lookup (key : String) (value : Bytes) (l : List (String × Bytes))
    (h : l.lookup key = some value) : (key, value) ∈ l := by
  induction l with
  | nil => simp [List.lookup] at h
  | cons kv rest ih =>
    obtain ⟨k, v⟩ := kv
    simp only [List.lookup] at h
    cases hk : key == k with
    | true =>
      rw [hk] at h
      have : key = k := by simpa using hk
      simp only [Option.some.injEq] at h
      subst this; subst h
      exact List.mem_cons_self _ _
    | false =>
      rw [hk] at h
      exact List.mem_cons_of_mem _ (ih h)

theorem mem_insertKV (key : String) (value : Bytes) (l : List (String × Bytes))
    (kv : String × Bytes) (h : kv ∈ insertKV key value l) : kv = (key, value) ∨ kv ∈ l := by
  induction l with
  | nil => simpa [insertKV] using h
  | cons hd rest ih =>
    obtain ⟨k, v⟩ := hd
    unfold insertKV at h
    split_ifs at h with h1 h2
    · rcases List.mem_cons.1 h with h | h
      · exact Or.inl h
      · exact Or.inr (List.mem_cons_of_mem _ h)
    · rcases List.mem_cons.1 h with h | h
      · exact Or.inl h
      · exact Or.inr h
    · rcases List.mem_cons.1 h with h | h
      · exact Or.inr (h ▸ List.mem_cons_self _ _)
      · rcases ih h with h | h
        · exact Or.inl h
        · exact Or.inr (List.mem_cons_of_mem _ h)

theorem lookup_insertKV_isSome (key key1 : String) (value : Bytes) (l : List (String × Bytes))
    (h : (l.lookup key1).isSome = true) : ((insertKV key value l).lookup key1).isSome = true := by
  by_cases hk : key1 = key
  · subst hk
    rw [lookup_insertKV_self]
    rfl
  · rw [lookup_insertKV_ne key key1 value l hk]
    exact h

/-! ## Composite keys -/

theorem createCompositeKey_single (objectType id key : String)
    (h : createCompositeKey objectType [id] = .ok key) :
    key.data = minUnicodeRuneValue :: objectType.data ++ minUnicodeRuneValue ::
      (id.data ++ [minUnicodeRuneValue]) := by
  unfold createCompositeKey at h
  cases h1 : validateCompositeKeyAttribute objectType with
  | error err => simp [h1] at h
  | ok u =>
    cases h2 : validateCompositeKeyAttribute id with
    | error err => simp [h1, h2, compositeKeyAttributes] at h
    | ok u2 =>
      simp only [h1, h2, compositeKeyAttributes, Except.ok.injEq] at h
      rw [← h]

theorem createCompositeKey_inj (objectType id1 id2 key : String)
    (h1 : createCompositeKey objectType [id1] = .ok key)
    (h2 : createCompositeKey objectType [id2] = .ok key) : id1 = id2 := by
  have e1 := createCompositeKey_single _ _ _ h1
  have e2 := createCompositeKey_single _ _ _ h2
  rw [e1] at e2
  simp only [List.cons.injEq, true_and, List.append_cancel_left_eq] at e2
  have e3 := List.append_cancel_right e2
  exact String.ext e3

theorem ownerKey_ne_houseKey (id1 id2 key : String) (h1 : ownerKey id1 = .ok key)
    (h2 : houseKey id2 = .ok key) : False := by
  have e1 := createCompositeKey_single _ _ _ h1
  have e2 := createCompositeKey_single _ _ _ h2
  rw [e1] at e2
  simp [prefixOwner, prefixHouse] at e2

/-! ## What the probes and the writes establish -/

theorem checkOwner_ok_iff (id : String) (stub : Stub) (b : Bool) :
    (CheckOwner id stub).1 = .ok b ↔
      ∃ key, ownerKey id = .ok key ∧ stub.fault (.getState key) = none ∧
        (stub.State.lookup key).isSome = b := by
  rw [checkOwner_run]
  cases hk : ownerKey id with
  | error err => simp
  | ok key =>
    cases hf : stub.fault (.getState key) <;> simp [hf]

theorem checkHouse_ok_iff (id : String) (stub : Stub) (b : Bool) :
    (CheckHouse id stub).1 = .ok b ↔
      ∃ key, houseKey id = .ok key ∧ stub.fault (.getState key) = none ∧
        (stub.State.lookup key).isSome = b := by
  rw [checkHouse_run]
  cases hk : houseKey id with
  | error err => simp
  | ok key =>
    cases hf : stub.fault (.getState key) <;> simp [hf]

/-- A successful `AddOwner` found no Owner under the key and stored the
encoded Owner there. -/
theorem addOwner_ok (goowner : Owner) (stub : Stub) (h : (AddOwner goowner stub).1 = .ok ()) :
    ∃ key jsonowner, ownerKey goowner.Id = .ok key ∧ jsonMarshalOwner goowner = .ok jsonowner ∧
      (CheckOwner goowner.Id stub).1 = .ok false ∧
      (AddOwner goowner stub).2 = { stub with State := insertKV key jsonowner stub.State } := by
  rw [addOwner_run] at h ⊢
  cases hc : (CheckOwner goowner.Id stub).1 with
  | error err => simp [hc] at h
  | ok found =>
    cases found with
    | true => simp [hc] at h
    | false =>
      cases hk : ownerKey goowner.Id with
      | error err => simp [hc, hk, jsonMarshalOwner] at h
      | ok key =>
        cases hp : stub.fault (.putState key) with
        | some err => simp [hc, hk, hp, jsonMarshalOwner] at h
        | none => exact ⟨key, _, rfl, rfl, rfl, by simp [hp, jsonMarshalOwner]⟩

/-- A successful `AddHouse` or `UpdateHouse` passed `ValidateHouse` and
stored the encoded House under its key. -/
theorem addHouse_ok (gohouse : House) (stub : Stub) (h : (AddHouse gohouse stub).1 = .ok ()) :
    ∃ key jsonhouse, houseKey gohouse.Id = .ok key ∧ jsonMarshalHouse gohouse = .ok jsonhouse ∧
      (CheckHouse gohouse.Id stub).1 = .ok false ∧
      (CheckOwner gohouse.OwnerId stub).1 = .ok true ∧
      (AddHouse gohouse stub).2 = { stub with State := insertKV key jsonhouse stub.State } := by
  rw [addHouse_run] at h ⊢
  cases hk : houseKey gohouse.Id with
  | error err => simp [hk] at h
  | ok key =>
    cases hc : (CheckHouse gohouse.Id stub).1 with
    | error err => simp [hc, hk] at h
    | ok found =>
      cases found with
      | true => simp [hc, hk] at h
      | false =>
        cases ho : (CheckOwner gohouse.OwnerId stub).1 with
        | error err => simp [hc, hk, ho] at h
        | ok ok =>
          cases ok with
          | false => simp [hc, hk, ho] at h
          | true =>
            cases hp : stub.fault (.putState key) with
            | some err => simp [hc, hk, ho, hp, jsonMarshalHouse] at h
            | none => exact ⟨key, _, rfl, rfl, rfl, rfl, by simp [hp, jsonMarshalHouse]⟩

theorem updateHouse_ok (gohouse : House) (stub : Stub)
    (h : (UpdateHouse gohouse stub).1 = .ok ()) :
    ∃ key jsonhouse, houseKey gohouse.Id = .ok key ∧ jsonMarshalHouse gohouse = .ok jsonhouse ∧
      (CheckHouse gohouse.Id stub).1 = .ok true ∧
      (CheckOwner gohouse.OwnerId stub).1 = .ok true ∧
      (UpdateHouse gohouse stub).2 = { stub with State := insertKV key jsonhouse stub.State } := by
  rw [updateHouse_run] at h ⊢
  cases hc : (CheckHouse gohouse.Id stub).1 with
  | error err => simp [hc] at h
  | ok found =>
    cases found with
    | false => simp [hc] at h
    | true =>
      cases ho : (CheckOwner gohouse.OwnerId stub).1 with
      | error err => simp [hc, ho] at h
      | ok ok =>
        cases ok with
        | false => simp [hc, ho] at h
        | true =>
          cases hk : houseKey gohouse.Id with
          | error err => simp [hc, hk, ho] at h
          | ok key =>
            cases hp : stub.fault (.putState key) with
            | some err => simp [hc, hk, ho, hp, jsonMarshalHouse] at h
            | none => exact ⟨key, _, rfl, rfl, rfl, rfl, by simp [hp, jsonMarshalHouse]⟩

/-! ## Reading after a write -/

theorem fault_state (stub : Stub) (state : List (String × Bytes)) (call : StoreCall) :
    Stub.fault { stub with State := state } call = stub.fault call := rfl

theorem getHouse_insert_self (id key : String) (bytes : Bytes) (stub : Stub)
    (hk : houseKey id = .ok key) (hf : stub.fault (.getState key) = none) :
    (GetHouse id { stub with State := insertKV key bytes stub.State }).1
      = jsonUnmarshalHouse bytes := by
  rw [getHouse_run, hk]
  simp only [fault_state, hf, lookup_insertKV_self]

theorem checkOwner_insert (id key : String) (bytes : Bytes) (stub : Stub)
    (h : (CheckOwner id stub).1 = .ok true) :
    (CheckOwner id { stub with State := insertKV key bytes stub.State }).1 = .ok true := by
  rw [checkOwner_ok_iff] at h ⊢
  obtain ⟨okey, hk, hf, hl⟩ := h
  exact ⟨okey, hk, hf, lookup_insertKV_isSome key okey bytes stub.State hl⟩

theorem checkHouse_insert (id key : String) (bytes : Bytes) (stub : Stub)
    (h : (CheckHouse id stub).1 = .ok true) :
    (CheckHouse id { stub with State := insertKV key bytes stub.State }).1 = .ok true := by
  rw [checkHouse_ok_iff] at h ⊢
  obtain ⟨hkey, hk, hf, hl⟩ := h
  exact ⟨hkey, hk, hf, lookup_insertKV_isSome key hkey bytes stub.State hl⟩

/-- After a successful `UpdateHouse` the House read back is the argument. -/
theorem updateHouse_then_getHouse (gohouse : House) (stub : Stub)
    (h : (UpdateHouse gohouse stub).1 = .ok ()) :
    (GetHouse gohouse.Id (UpdateHouse gohouse stub).2).1 = .ok gohouse := by
  obtain ⟨key, jsonhouse, hk, hj, hc, _, hs⟩ := updateHouse_ok gohouse stub h
  obtain ⟨key1, hk1, hf, _⟩ := (checkHouse_ok_iff _ _ _).1 hc
  rw [hk] at hk1
  cases hk1
  rw [hs, getHouse_insert_self _ key _ stub hk hf]
  simp only [jsonMarshalHouse, Except.ok.injEq] at hj
  subst hj
  rfl

/-! ## The invariant of the registry -/

theorem consistent_insert (stub : Stub) (key : String) (bytes : Bytes) (hc : Consistent stub)
    (hnew : (∃ goowner : Owner, ownerKey goowner.Id = .ok key ∧
        jsonMarshalOwner goowner = .ok bytes) ∨
      (∃ gohouse : House, houseKey gohouse.Id = .ok key ∧ jsonMarshalHouse gohouse = .ok bytes ∧
        (CheckOwner gohouse.OwnerId stub).1 = .ok true)) :
    Consistent { stub with State := insertKV key bytes stub.State } := by
  intro kv hkv
  have lift :
      ∀ kv : String × Bytes,
        ((∃ goowner : Owner, ownerKey goowner.Id = .ok kv.1 ∧
            jsonMarshalOwner goowner = .ok kv.2) ∨
          (∃ gohouse : House, houseKey gohouse.Id = .ok kv.1 ∧
            jsonMarshalHouse gohouse = .ok kv.2 ∧
            (CheckOwner gohouse.OwnerId stub).1 = .ok true)) →
        ((∃ goowner : Owner, ownerKey goowner.Id = .ok kv.1 ∧
            jsonMarshalOwner goowner = .ok kv.2) ∨
          (∃ gohouse : House, houseKey gohouse.Id = .ok kv.1 ∧
            jsonMarshalHouse gohouse = .ok kv.2 ∧
            (CheckOwner gohouse.OwnerId
              { stub with State := insertKV key bytes stub.State }).1 = .ok true)) := by
    intro kv h
    rcases h with h | ⟨gohouse, h1, h2, h3⟩
    · exact Or.inl h
    · exact Or.inr ⟨gohouse, h1, h2, checkOwner_insert _ key bytes stub h3⟩
  rcases mem_insertKV key bytes stub.State kv hkv with h | h
  · subst h
    exact lift _ hnew
  · exact lift _ (hc kv h)

theorem consistent_step (op : Op) (stub : Stub) (hc : Consistent stub) :
    Consistent (op.run stub).2 := by
  cases hres : (op.run stub).1 with
  | error err =>
    rw [op_error_snd op stub err hres]
    exact hc
  | ok u =>
    cases op with
    | addOwner goowner =>
      obtain ⟨key, jsonowner, hk, hj, _, hs⟩ := addOwner_ok goowner stub hres
      show Consistent (AddOwner goowner stub).2
      rw [hs]
      exact consistent_insert stub key jsonowner hc (Or.inl ⟨goowner, hk, hj⟩)
    | addHouse gohouse =>
      obtain ⟨key, jsonhouse, hk, hj, _, ho, hs⟩ := addHouse_ok gohouse stub hres
      show Consistent (AddHouse gohouse stub).2
      rw [hs]
      exact consistent_insert stub key jsonhouse hc (Or.inr ⟨gohouse, hk, hj, ho⟩)
    | updateHouse gohouse =>
      obtain ⟨key, jsonhouse, hk, hj, _, ho, hs⟩ := updateHouse_ok gohouse stub hres
      show Consistent (UpdateHouse gohouse stub).2
      rw [hs]
      exact consistent_insert stub key jsonhouse hc (Or.inr ⟨gohouse, hk, hj, ho⟩)
    | transferHouse houseId newownerId =>
      show Consistent (TransferHouse houseId newownerId stub).2
      have hres1 : (TransferHouse houseId newownerId stub).1 = .ok u := hres
      rw [transferHouse_run] at hres1 ⊢
      cases hg : (GetHouse houseId stub).1 with
      | error err => simp [hg] at hres1
      | ok gohouse =>
        simp only [hg] at hres1 ⊢
        obtain ⟨key, jsonhouse, hk, hj, _, ho, hs⟩ := updateHouse_ok _ stub hres1
        rw [hs]
        exact consistent_insert stub key jsonhouse hc (Or.inr ⟨_, hk, hj, ho⟩)

theorem consistent_runOps (ops : List Op) (stub : Stub) (hc : Consistent stub) :
    Consistent (runOps ops stub) := by
  induction ops generalizing stub with
  | nil => exact hc
  | cons op ops ih => exact ih _ (consistent_step op stub hc)

theorem reachable_consistent (stub : Stub) (h : Reachable stub) : Consistent stub := by
  obtain ⟨ops, hops⟩ := h
  rw [hops]
  apply consistent_runOps
  intro kv hkv
  exact absurd hkv (List.not_mem_nil _)

/-- What `GetHouse` returns on a consistent ledger: a House with the Id that
was asked for, whose owner passes `CheckOwner`. -/
theorem getHouse_consistent (stub : Stub) (hc : Consistent stub) (houseId : String)
    (gohouse : House) (hg : (GetHouse houseId stub).1 = .ok gohouse) :
    gohouse.Id = houseId ∧ (CheckOwner gohouse.OwnerId stub).1 = .ok true := by
  rw [getHouse_run] at hg
  cases hk : houseKey houseId with
  | error err => simp [hk] at hg
  | ok key =>
    cases hf : stub.fault (.getState key) with
    | some err => simp [hk, hf] at hg
    | none =>
      cases hl : stub.State.lookup key with
      | none => simp [hk, hf, hl] at hg
      | some bytes =>
        simp only [hk, hf, hl, jsonUnmarshalHouse] at hg
        rcases hc _ (mem_of_lookup key bytes stub.State hl) with
          ⟨goowner, h1, _⟩ | ⟨stored, h1, h2, h3⟩
        · exact (ownerKey_ne_houseKey _ _ _ h1 hk).elim
        · have hid : stored.Id = houseId := createCompositeKey_inj _ _ _ _ h1 hk
          simp only [jsonMarshalHouse, Except.ok.injEq] at h2
          rw [← h2] at hg
          simp only [Except.ok.injEq] at hg
          subst hg
          exact ⟨hid, h3⟩

/-! ## Scans -/

/-- The range test of a scan for the given partial key. -/
theorem getStateByPartialCompositeKey_run (objectType : String) (stub : Stub) :
    GetStateByPartialCompositeKey objectType [] stub =
      match createCompositeKey objectType [] with
      | .error err => (.error err, stub)
      | .ok startKey =>
        match stub.fault (.getStateByPartialCompositeKey objectType) with
        | some err => (.error err, stub)
        | none =>
          (.ok (stub.State.filter (fun kv => decide (¬ kv.1.data < startKey.data) &&
            decide (kv.1.data < startKey.data ++ [maxUnicodeRuneValue]))), stub) := rfl

theorem houseStartKey :
    createCompositeKey prefixHouse []
      = .ok ⟨minUnicodeRuneValue :: prefixHouse.data ++ [minUnicodeRuneValue]⟩ := by
  decide

theorem ownerKey_not_in_house_range (id key : String) (h : ownerKey id = .ok key) :
    ¬ key.data < (minUnicodeRuneValue :: prefixHouse.data ++ [minUnicodeRuneValue])
      ++ [maxUnicodeRuneValue] := by
  rw [createCompositeKey_single _ _ _ h]
  intro hlt
  simp only [prefixOwner, prefixHouse, List.cons_append] at hlt
  cases hlt with
  | rel h1 => exact absurd h1 (by decide)
  | cons h2 =>
    cases h2 with
    | rel h1 => exact absurd h1 (by decide)

theorem listHouses_loop_mem (iter : List (String × Bytes)) (acc gohouses : List House)
    (h : ListHouses.loop acc iter = .ok gohouses) (gohouse : House) (hm : gohouse ∈ gohouses) :
    gohouse ∈ acc ∨ ∃ kv ∈ iter, jsonUnmarshalHouse kv.2 = .ok gohouse := by
  induction iter generalizing acc with
  | nil =>
    simp only [ListHouses.loop, Except.ok.injEq] at h
    subst h
    exact Or.inl hm
  | cons kv iter ih =>
    simp only [ListHouses.loop] at h
    cases hd : jsonUnmarshalHouse kv.2 with
    | error err => simp [hd] at h
    | ok decoded =>
      simp only [hd] at h
      rcases ih _ h with h1 | ⟨kv1, h1, h2⟩
      · rcases List.mem_append.1 h1 with h1 | h1
        · exact Or.inl h1
        · have : gohouse = decoded := by simpa using h1
          subst this
          exact Or.inr ⟨kv, List.mem_cons_self _ _, hd⟩
      · exact Or.inr ⟨kv1, List.mem_cons_of_mem _ h1, h2⟩

/-- On a consistent ledger every House that `ListHouses` returns passes
`CheckOwner` on its OwnerId. -/
theorem listHouses_consistent (stub : Stub) (hc : Consistent stub) (gohouses : List House)
    (hl : (ListHouses stub).1 = .ok gohouses) (gohouse : House) (hm : gohouse ∈ gohouses) :
    (CheckOwner gohouse.OwnerId stub).1 = .ok true := by
  simp only [ListHouses, bind_run, getStateByPartialCompositeKey_run, houseStartKey, CC.lift]
    at hl
  cases hf : stub.fault (.getStateByPartialCompositeKey prefixHouse) with
  | some err => simp [hf] at hl
  | none =>
    simp only [hf] at hl
    rcases listHouses_loop_mem _ _ _ hl gohouse hm with h | ⟨kv, hkv, hd⟩
    · exact absurd h (List.not_mem_nil _)
    · obtain ⟨hmem, hrange⟩ := List.mem_filter.1 hkv
      simp only [Bool.and_eq_true, decide_eq_true_eq] at hrange
      rcases hc kv hmem with ⟨goowner, h1, _⟩ | ⟨stored, _, h2, h3⟩
      · exact absurd hrange.2 (ownerKey_not_in_house_range _ _ h1)
      · simp only [jsonMarshalHouse, Except.ok.injEq] at h2
        rw [← h2] at hd
        simp only [jsonUnmarshalHouse, Except.ok.injEq] at hd
        subst hd
        exact h3

/-! ## TransferHouse and AddHouse: which error -/

/-- On any stub: `TransferHouse` fails with the NotFound message of
`GetHouse` when the probe finds no House, and with the ValidationFailed
message when the House it reads carries the Id it was asked for and the probe
finds no Owner. -/
theorem transferHouse_error_cases (houseId newownerId : String) (stub : Stub) :
    ((CheckHouse houseId stub).1 = .ok false →
      TransferHouse houseId newownerId stub = (.error (mesHouseNotFound houseId), stub)) ∧
    (∀ gohouse, (GetHouse houseId stub).1 = .ok gohouse → gohouse.Id = houseId →
      (CheckOwner newownerId stub).1 = .ok false →
        TransferHouse houseId newownerId stub = (.error mesValidationFailed, stub)) := by
  refine ⟨?_, ?_⟩
  · intro h
    obtain ⟨key, hk, hf, hl⟩ := (checkHouse_ok_iff _ _ _).1 h
    have hg : (GetHouse houseId stub).1 = .error (mesHouseNotFound houseId) := by
      rw [getHouse_run, hk]
      cases hl1 : stub.State.lookup key with
      | none => simp [hf, hl1]
      | some bytes => simp [hl1] at hl
    rw [transferHouse_run, hg]
  · intro gohouse hg hid ho
    have hch : (CheckHouse houseId stub).1 = .ok true := by
      rw [getHouse_run] at hg
      rw [checkHouse_ok_iff]
      cases hk : houseKey houseId with
      | error err => simp [hk] at hg
      | ok key =>
        cases hf : stub.fault (.getState key) with
        | some err => simp [hk, hf] at hg
        | none =>
          cases hl : stub.State.lookup key with
          | none => simp [hk, hf, hl] at hg
          | some bytes => exact ⟨key, rfl, hf, by rw [hl]; rfl⟩
    rw [transferHouse_run, hg]
    simp only []
    rw [updateHouse_run]
    simp only [hid, hch, ho]

theorem mesHouseAlreadyExists_ne (id : String) :
    mesHouseAlreadyExists id ≠ mesValidationFailed := by
  intro h
  have := congrArg String.data h
  simp [mesHouseAlreadyExists, mesValidationFailed] at this

theorem fault_none (stub : Stub) (hf : stub.faults = []) (call : StoreCall) :
    stub.fault call = none := by
  simp [Stub.fault, hf]

theorem createCompositeKey_single_error (objectType id err : String)
    (h : createCompositeKey objectType [id] = .error err) : err = errCompositeKeyAttribute := by
  unfold createCompositeKey at h
  cases h1 : validateCompositeKeyAttribute objectType with
  | error err1 =>
    simp only [h1, Except.error.injEq] at h
    unfold validateCompositeKeyAttribute at h1
    split at h1
    · simp only [Except.error.injEq] at h1
      rw [← h, ← h1]
    · exact absurd h1 (by simp)
  | ok u =>
    cases h2 : validateCompositeKeyAttribute id with
    | error err2 =>
      simp only [h1, h2, compositeKeyAttributes, Except.error.injEq] at h
      unfold validateCompositeKeyAttribute at h2
      split at h2
      · simp only [Except.error.injEq] at h2
        rw [← h, ← h2]
      · exact absurd h2 (by simp)
    | ok u2 => simp [h1, h2, compositeKeyAttributes] at h

/-- With no failing store call the only error a probe returns is the one of
the key builder. -/
theorem checkOwner_error (id : String) (stub : Stub) (hf : stub.faults = []) (err : String)
    (h : (CheckOwner id stub).1 = .error err) : err = errCompositeKeyAttribute := by
  rw [checkOwner_run] at h
  cases hk : ownerKey id with
  | error err1 =>
    simp only [hk, Except.error.injEq] at h
    rw [← h]
    exact createCompositeKey_single_error _ _ _ hk
  | ok key => simp [hk, fault_none stub hf] at h

theorem checkHouse_error (id : String) (stub : Stub) (hf : stub.faults = []) (err : String)
    (h : (CheckHouse id stub).1 = .error err) : err = errCompositeKeyAttribute := by
  rw [checkHouse_run] at h
  cases hk : houseKey id with
  | error err1 =>
    simp only [hk, Except.error.injEq] at h
    rw [← h]
    exact createCompositeKey_single_error _ _ _ hk
  | ok key => simp [hk, fault_none stub hf] at h

theorem errCompositeKeyAttribute_ne : errCompositeKeyAttribute ≠ mesValidationFailed := by
  decide

/-! ## ListOwnerIdHouses -/

theorem stringsIndexFrom_ne (substr s : List Char) (pos : Nat) :
    stringsIndexFrom substr s pos ≠ -1 ↔ substr <:+: s := by
  induction s generalizing pos with
  | nil =>
    unfold stringsIndexFrom
    by_cases h : substr.isPrefixOf [] = true
    · have hp : substr <+: [] := List.isPrefixOf_iff_prefix.1 h
      simp only [h, if_true]
      exact ⟨fun _ => hp.isInfix, fun _ => by omega⟩
    · simp only [h, if_false, ne_eq, not_true_eq_false, false_iff, Bool.false_eq_true]
      intro hi
      have : substr = [] := List.eq_nil_of_infix_nil hi
      subst this
      exact h rfl
  | cons c s ih =>
    unfold stringsIndexFrom
    by_cases h : substr.isPrefixOf (c :: s) = true
    · have hp : substr <+: c :: s := List.isPrefixOf_iff_prefix.1 h
      simp only [h, if_true]
      exact ⟨fun _ => hp.isInfix, fun _ => by omega⟩
    · simp only [h, if_false, Bool.false_eq_true]
      rw [ih, List.infix_cons_iff]
      constructor
      · exact Or.inr
      · rintro (hp | hi)
        · exact absurd (List.isPrefixOf_iff_prefix.2 hp) h
        · exact hi

/-- The test of `ListOwnerIdHouses` holds exactly when "admin" occurs in
the owner id. -/
theorem stringsIndex_admin (ownerId : String) :
    stringsIndex ownerId "admin" ≠ -1 ↔ "admin".data <:+: ownerId.data :=
  stringsIndexFrom_ne _ _ 0

theorem listOwnerIdHouses_loop_admin (ownerId : String)
    (h : stringsIndex ownerId "admin" ≠ -1) (iter : List (String × Bytes))
    (acc : List House) :
    ListOwnerIdHouses.loop ownerId acc iter = ListHouses.loop acc iter := by
  induction iter generalizing acc with
  | nil => rfl
  | cons kv iter ih =>
    simp only [ListOwnerIdHouses.loop, ListHouses.loop]
    cases jsonUnmarshalHouse kv.2 with
    | error err => rfl
    | ok gohouse =>
      simp only [ih]
      rw [if_pos h]

theorem listOwnerIdHouses_loop_filter (ownerId : String)
    (h : ¬ stringsIndex ownerId "admin" ≠ -1) (iter : List (String × Bytes))
    (acc : List House) :
    ListOwnerIdHouses.loop ownerId (acc.filter (fun gohouse => gohouse.OwnerId = ownerId)) iter
      = (ListHouses.loop acc iter).map
          (fun gohouses => gohouses.filter (fun gohouse => gohouse.OwnerId = ownerId)) := by
  induction iter generalizing acc with
  | nil => rfl
  | cons kv iter ih =>
    simp only [ListOwnerIdHouses.loop, ListHouses.loop]
    cases jsonUnmarshalHouse kv.2 with
    | error err => rfl
    | ok gohouse =>
      simp only []
      rw [if_neg h, ← ih (acc ++ [gohouse])]
      by_cases ho : gohouse.OwnerId = ownerId
      · simp [ho, List.filter_append]
      · simp [ho, List.filter_append]

/-! ## Queries leave the stub alone -/

theorem getStateByPartialCompositeKey_snd (objectType : String) (stub : Stub) :
    (GetStateByPartialCompositeKey objectType [] stub).2 = stub := by
  rw [getStateByPartialCompositeKey_run]
  repeat' split
  all_goals rfl

theorem validateHouse_snd (gohouse : House) (stub : Stub) :
    (ValidateHouse gohouse stub).2 = stub := by
  rw [validateHouse_run]

theorem listOwners_run (stub : Stub) :
    ListOwners stub =
      (match (GetStateByPartialCompositeKey prefixOwner [] stub).1 with
        | .error err => .error err
        | .ok iter => ListOwners.loop [] iter, stub) := by
  have h := getStateByPartialCompositeKey_snd prefixOwner stub
  simp only [ListOwners, bind_run, CC.lift]
  cases hs : GetStateByPartialCompositeKey prefixOwner [] stub with
  | mk res stub1 =>
    rw [hs] at h
    simp only at h
    subst h
    cases res <;> rfl

theorem listHouses_run (stub : Stub) :
    ListHouses stub =
      (match (GetStateByPartialCompositeKey prefixHouse [] stub).1 with
        | .error err => .error err
        | .ok iter => ListHouses.loop [] iter, stub) := by
  have h := getStateByPartialCompositeKey_snd prefixHouse stub
  simp only [ListHouses, bind_run, CC.lift]
  cases hs : GetStateByPartialCompositeKey prefixHouse [] stub with
  | mk res stub1 =>
    rw [hs] at h
    simp only at h
    subst h
    cases res <;> rfl

theorem listOwnerIdHouses_run (ownerId : String) (stub : Stub) :
    ListOwnerIdHouses ownerId stub =
      (match (GetStateByPartialCompositeKey prefixHouse [] stub).1 with
        | .error err => .error err
        | .ok iter => ListOwnerIdHouses.loop ownerId [] iter, stub) := by
  have h := getStateByPartialCompositeKey_snd prefixHouse stub
  simp only [ListOwnerIdHouses, bind_run, CC.lift]
  cases hs : GetStateByPartialCompositeKey prefixHouse [] stub with
  | mk res stub1 =>
    rw [hs] at h
    simp only at h
    subst h
    cases res <;> rfl

/-! ## AddHouse followed by GetHouse -/

/-- After a successful `AddHouse` the House read back is the argument. -/
theorem addHouse_then_getHouse (gohouse : House) (stub : Stub)
    (h : (AddHouse gohouse stub).1 = .ok ()) :
    (GetHouse gohouse.Id (AddHouse gohouse stub).2).1 = .ok gohouse := by
  obtain ⟨key, jsonhouse, hk, hj, hc, _, hs⟩ := addHouse_ok gohouse stub h
  obtain ⟨key1, hk1, hf, _⟩ := (checkHouse_ok_iff _ _ _).1 hc
  rw [hk] at hk1
  cases hk1
  rw [hs, getHouse_insert_self _ key _ stub hk hf]
  simp only [jsonMarshalHouse, Except.ok.injEq] at hj
  subst hj
  rfl

theorem query_after (query : Query) (stub : Stub) : query.after stub = stub := by
  cases query with
  | checkOwner id => exact checkOwner_snd id stub
  | checkHouse id => exact checkHouse_snd id stub
  | validateHouse gohouse => exact validateHouse_snd gohouse stub
  | getHouse id => exact getHouse_snd id stub
  | listOwners => show (ListOwners stub).2 = stub; rw [listOwners_run]
  | listHouses => show (ListHouses stub).2 = stub; rw [listHouses_run]
  | listOwnerIdHouses ownerId =>
    show (ListOwnerIdHouses ownerId stub).2 = stub
    rw [listOwnerIdHouses_run]

/-! ## Keys of the two namespaces -/

theorem ownerKey_inj (id1 id2 key : String) (h1 : ownerKey id1 = .ok key)
    (h2 : ownerKey id2 = .ok key) : id1 = id2 :=
  createCompositeKey_inj prefixOwner id1 id2 key h1 h2

theorem houseKey_inj (id1 id2 key : String) (h1 : houseKey id1 = .ok key)
    (h2 : houseKey id2 = .ok key) : id1 = id2 :=
  createCompositeKey_inj prefixHouse id1 id2 key h1 h2

theorem ownerStartKey :
    createCompositeKey prefixOwner []
      = .ok ⟨minUnicodeRuneValue :: prefixOwner.data ++ [minUnicodeRuneValue]⟩ := by
  decide

theorem ownerKey_not_house_scan (id key : String) (h : ownerKey id = .ok key) :
    ¬ (minUnicodeRuneValue :: prefixHouse.data ++ [minUnicodeRuneValue]) <+: key.data := by
  rw [createCompositeKey_single _ _ _ h]
  intro hp
  simp [prefixOwner, prefixHouse] at hp

theorem houseKey_not_owner_scan (id key : String) (h : houseKey id = .ok key) :
    ¬ (minUnicodeRuneValue :: prefixOwner.data ++ [minUnicodeRuneValue]) <+: key.data := by
  rw [createCompositeKey_single _ _ _ h]
  intro hp
  simp [prefixOwner, prefixHouse] at hp

theorem ownerKey_owner_scan (id key : String) (h : ownerKey id = .ok key) :
    (minUnicodeRuneValue :: prefixOwner.data ++ [minUnicodeRuneValue]) <+: key.data := by
  rw [createCompositeKey_single _ _ _ h]
  exact ⟨id.data ++ [minUnicodeRuneValue], by simp⟩

theorem houseKey_house_scan (id key : String) (h : houseKey id = .ok key) :
    (minUnicodeRuneValue :: prefixHouse.data ++ [minUnicodeRuneValue]) <+: key.data := by
  rw [createCompositeKey_single _ _ _ h]
  exact ⟨id.data ++ [minUnicodeRuneValue], by simp⟩

/-! ## What a write keeps -/

/-- A successful registry operation wrote one pair; it wrote it under an
Owner key that held nothing, or under a House key. -/
theorem op_ok_state (op : Op) (stub : Stub) (h : (op.run stub).1 = .ok ()) :
    ∃ key bytes, (op.run stub).2 = { stub with State := insertKV key bytes stub.State } ∧
      ((∃ goowner : Owner, ownerKey goowner.Id = .ok key ∧ jsonMarshalOwner goowner = .ok bytes ∧
          stub.State.lookup key = none) ∨
        (∃ gohouse : House, houseKey gohouse.Id = .ok key ∧
          jsonMarshalHouse gohouse = .ok bytes)) := by
  cases op with
  | addOwner goowner =>
    obtain ⟨key, jsonowner, hk, hj, hc, hs⟩ := addOwner_ok goowner stub h
    obtain ⟨key1, hk1, _, hl⟩ := (checkOwner_ok_iff _ _ _).1 hc
    rw [hk] at hk1
    cases hk1
    refine ⟨key, jsonowner, hs, Or.inl ⟨goowner, hk, hj, ?_⟩⟩
    cases hl1 : stub.State.lookup key with
    | none => rfl
    | some bytes => simp [hl1] at hl
  | addHouse gohouse =>
    obtain ⟨key, jsonhouse, hk, hj, _, _, hs⟩ := addHouse_ok gohouse stub h
    exact ⟨key, jsonhouse, hs, Or.inr ⟨gohouse, hk, hj⟩⟩
  | updateHouse gohouse =>
    obtain ⟨key, jsonhouse, hk, hj, _, _, hs⟩ := updateHouse_ok gohouse stub h
    exact ⟨key, jsonhouse, hs, Or.inr ⟨gohouse, hk, hj⟩⟩
  | transferHouse houseId newownerId =>
    have h1 : (TransferHouse houseId newownerId stub).1 = .ok () := h
    show ∃ key bytes, (TransferHouse houseId newownerId stub).2 = _ ∧ _
    rw [transferHouse_run] at h1 ⊢
    cases hg : (GetHouse houseId stub).1 with
    | error err => simp [hg] at h1
    | ok gohouse =>
      simp only [hg] at h1 ⊢
      obtain ⟨key, jsonhouse, hk, hj, _, _, hs⟩ := updateHouse_ok _ stub h1
      exact ⟨key, jsonhouse, hs, Or.inr ⟨_, hk, hj⟩⟩

/-- No registry operation changes what is stored under an Owner key that
holds a value. -/
theorem op_keeps_owner_record (op : Op) (stub : Stub) (id key : String)
    (hk : ownerKey id = .ok key) (hl : (stub.State.lookup key).isSome = true) :
    (op.run stub).2.State.lookup key = stub.State.lookup key := by
  cases hres : (op.run stub).1 with
  | error err => rw [op_error_snd op stub err hres]
  | ok u =>
    obtain ⟨wkey, bytes, hs, hshape⟩ := op_ok_state op stub hres
    rw [hs]
    apply lookup_insertKV_ne
    rintro rfl
    rcases hshape with ⟨_, _, _, hnone⟩ | ⟨gohouse, hhk, _⟩
    · rw [hnone] at hl
      exact absurd hl (by simp)
    · exact ownerKey_ne_houseKey _ _ _ hk hhk

theorem op_faults (op : Op) (stub : Stub) : (op.run stub).2.faults = stub.faults := by
  cases hres : (op.run stub).1 with
  | error err => rw [op_error_snd op stub err hres]
  | ok u =>
    obtain ⟨wkey, bytes, hs, _⟩ := op_ok_state op stub hres
    rw [hs]

theorem op_keeps_checkOwner (op : Op) (stub : Stub) (id : String)
    (h : (CheckOwner id stub).1 = .ok true) : (CheckOwner id (op.run stub).2).1 = .ok true := by
  cases hres : (op.run stub).1 with
  | error err => rw [op_error_snd op stub err hres]; exact h
  | ok u =>
    obtain ⟨wkey, bytes, hs, _⟩ := op_ok_state op stub hres
    rw [hs]
    exact checkOwner_insert id wkey bytes stub h

theorem op_keeps_checkHouse (op : Op) (stub : Stub) (id : String)
    (h : (CheckHouse id stub).1 = .ok true) : (CheckHouse id (op.run stub).2).1 = .ok true := by
  cases hres : (op.run stub).1 with
  | error err => rw [op_error_snd op stub err hres]; exact h
  | ok u =>
    obtain ⟨wkey, bytes, hs, _⟩ := op_ok_state op stub hres
    rw [hs]
    exact checkHouse_insert id wkey bytes stub h

/-! ## GetHouse against the probe -/

theorem errCompositeKeyAttribute_ne_notFound (id : String) :
    errCompositeKeyAttribute ≠ mesHouseNotFound id := by
  intro h
  have := congrArg String.data h
  simp [errCompositeKeyAttribute, mesHouseNotFound] at this

theorem getHouse_of_checkHouse_false (id : String) (stub : Stub)
    (h : (CheckHouse id stub).1 = .ok false) :
    GetHouse id stub = (.error (mesHouseNotFound id), stub) := by
  obtain ⟨key, hk, hf, hl⟩ := (checkHouse_ok_iff _ _ _).1 h
  rw [getHouse_run, hk]
  cases hl1 : stub.State.lookup key with
  | none => simp [hf, hl1]
  | some bytes => simp [hl1] at hl

theorem getHouse_of_checkHouse_true (id : String) (stub : Stub)
    (h : (CheckHouse id stub).1 = .ok true) :
    ∃ key bytes, houseKey id = .ok key ∧ stub.State.lookup key = some bytes ∧
      GetHouse id stub = (jsonUnmarshalHouse bytes, stub) := by
  obtain ⟨key, hk, hf, hl⟩ := (checkHouse_ok_iff _ _ _).1 h
  cases hl1 : stub.State.lookup key with
  | none => simp [hl1] at hl
  | some bytes =>
    refine ⟨key, bytes, hk, hl1, ?_⟩
    rw [getHouse_run, hk]
    simp [hf, hl1]

/-- With no failing store call a probe answers, or the key builder refused
the id. -/
theorem checkHouse_cases (id : String) (stub : Stub) (hf : stub.faults = []) :
    (CheckHouse id stub).1 = .ok true ∨ (CheckHouse id stub).1 = .ok false ∨
      ((CheckHouse id stub).1 = .error errCompositeKeyAttribute ∧
        (GetHouse id stub).1 = .error errCompositeKeyAttribute) := by
  cases hc : (CheckHouse id stub).1 with
  | ok found => cases found <;> simp
  | error err =>
    have he := checkHouse_error id stub hf err hc
    subst he
    refine Or.inr (Or.inr ⟨rfl, ?_⟩)
    rw [checkHouse_run] at hc
    rw [getHouse_run]
    cases hk : houseKey id with
    | error err1 =>
      have := createCompositeKey_single_error _ _ _ hk
      subst this
      rfl
    | ok key => simp [hk, fault_none stub hf] at hc

/-! ## TransferHouse on any ledger -/

theorem getHouse_insert_ne (id wkey : String) (bytes : Bytes) (stub : Stub)
    (hne : ∀ key, houseKey id = .ok key → key ≠ wkey) :
    (GetHouse id { stub with State := insertKV wkey bytes stub.State }).1
      = (GetHouse id stub).1 := by
  rw [getHouse_run, getHouse_run]
  cases hk : houseKey id with
  | error err => rfl
  | ok key =>
    simp only [fault_state]
    rw [lookup_insertKV_ne wkey key bytes stub.State (hne key hk)]
    cases stub.fault (.getState key) with
    | some err => rfl
    | none => cases stub.State.lookup key <;> rfl

/-- A successful `TransferHouse` leaves under houseId a House that differs
from the one read before in its OwnerId at most. -/
theorem transferHouse_then_getHouse (houseId newownerId : String) (stub : Stub)
    (h : (TransferHouse houseId newownerId stub).1 = .ok ()) :
    ∃ before after : House,
      (GetHouse houseId stub).1 = .ok before ∧
      (GetHouse houseId (TransferHouse houseId newownerId stub).2).1 = .ok after ∧
      after.Id = before.Id ∧ after.Address = before.Address ∧
      after.Price = before.Price ∧ after.Timestamp = before.Timestamp := by
  rw [transferHouse_run] at h ⊢
  cases hg : (GetHouse houseId stub).1 with
  | error err => simp [hg] at h
  | ok before =>
    simp only [hg] at h ⊢
    by_cases hid : before.Id = houseId
    · subst hid
      exact ⟨before, { before with OwnerId := newownerId }, rfl,
        updateHouse_then_getHouse _ stub h, rfl, rfl, rfl, rfl⟩
    · obtain ⟨wkey, jsonhouse, hk, _, _, _, hs⟩ := updateHouse_ok _ stub h
      refine ⟨before, before, rfl, ?_, rfl, rfl, rfl, rfl⟩
      rw [hs, getHouse_insert_ne houseId wkey jsonhouse stub, hg]
      rintro key hkey rfl
      exact hid (houseKey_inj _ _ _ hk hkey)

/-! ## The order of keys -/

theorem rune_lt_iff (c d : Char) : c < d ↔ c.toNat < d.toNat := by
  rw [Char.lt_def]
  exact Iff.rfl

theorem rune_eq_of_toNat (c d : Char) (h : c.toNat = d.toNat) : c = d :=
  Char.ext (UInt32.ext h)

theorem rune_toNat_lt (c : Char) : c.toNat < 1114112 := by
  have h := c.valid
  have h1 : c.toNat < 55296 ∨ 57343 < c.toNat ∧ c.toNat < 1114112 := h
  omega

theorem not_lt_minRune (c : Char) : ¬ c < minUnicodeRuneValue := by
  rw [rune_lt_iff]
  have : minUnicodeRuneValue.toNat = 0 := by decide
  omega

theorem minRune_lt (c : Char) (h : c ≠ minUnicodeRuneValue) : minUnicodeRuneValue < c := by
  rw [rune_lt_iff]
  have h0 : minUnicodeRuneValue.toNat = 0 := by decide
  have : c.toNat ≠ 0 := fun hc => h (rune_eq_of_toNat _ _ (by rw [hc, h0]))
  omega

theorem lt_maxRune (c : Char) (h : c ≠ maxUnicodeRuneValue) : c < maxUnicodeRuneValue := by
  rw [rune_lt_iff]
  have h0 : maxUnicodeRuneValue.toNat = 1114111 := by decide
  have h1 := rune_toNat_lt c
  have : c.toNat ≠ 1114111 := fun hc => h (rune_eq_of_toNat _ _ (by rw [hc, h0]))
  omega

theorem lex_cons_same (a : Char) (l1 l2 : List Char) : a :: l1 < a :: l2 ↔ l1 < l2 := by
  constructor
  · intro h
    cases h with
    | cons h1 => exact h1
    | rel h1 => exact absurd h1 (lt_irrefl a)
  · intro h
    exact List.Lex.cons h

theorem lex_append_left_iff (s t1 t2 : List Char) : s ++ t1 < s ++ t2 ↔ t1 < t2 := by
  induction s with
  | nil => exact Iff.rfl
  | cons a s ih =>
    rw [List.cons_append, List.cons_append, lex_cons_same, ih]

theorem not_append_lt_self (l r : List Char) : ¬ l ++ r < l := by
  induction l with
  | nil => exact List.Lex.not_nil_right _ _
  | cons a l ih =>
    rw [List.cons_append, lex_cons_same]
    exact ih

/-- An attribute the key builder accepts holds neither U+0000 nor
U+10FFFF. -/
theorem validate_ok (str : String) (h : validateCompositeKeyAttribute str = .ok ()) :
    ∀ c ∈ str.data, c ≠ minUnicodeRuneValue ∧ c ≠ maxUnicodeRuneValue := by
  unfold validateCompositeKeyAttribute at h
  split at h
  · exact absurd h (by simp)
  · rename_i hany
    intro c hc
    simp only [List.any_eq_true, Bool.or_eq_true, beq_iff_eq, not_exists, not_and, not_or]
      at hany
    exact hany c hc

theorem createCompositeKey_single_valid (objectType id key : String)
    (h : createCompositeKey objectType [id] = .ok key) :
    validateCompositeKeyAttribute id = .ok () := by
  unfold createCompositeKey at h
  cases h1 : validateCompositeKeyAttribute objectType with
  | error err => simp [h1] at h
  | ok u =>
    cases h2 : validateCompositeKeyAttribute id with
    | error err => simp [h1, h2, compositeKeyAttributes] at h
    | ok u2 => rfl

/-- Closing two attributes with U+0000 keeps their order, as long as
neither holds U+0000. -/
theorem lex_closed_iff (a b : List Char) (ha : ∀ c ∈ a, c ≠ minUnicodeRuneValue)
    (hb : ∀ c ∈ b, c ≠ minUnicodeRuneValue) :
    a ++ [minUnicodeRuneValue] < b ++ [minUnicodeRuneValue] ↔ a < b := by
  induction a generalizing b with
  | nil =>
    cases b with
    | nil =>
      simp only [List.nil_append]
      exact ⟨fun h => absurd h (lt_irrefl _), fun h => absurd h (lt_irrefl _)⟩
    | cons d b =>
      simp only [List.nil_append, List.cons_append]
      exact ⟨fun _ => List.Lex.nil,
        fun _ => List.Lex.rel (minRune_lt d (hb d (List.mem_cons_self _ _)))⟩
  | cons c a ih =>
    cases b with
    | nil =>
      simp only [List.nil_append, List.cons_append]
      constructor
      · intro h
        cases h with
        | cons h1 => exact absurd rfl (ha _ (List.mem_cons_self _ _))
        | rel h1 => exact absurd h1 (not_lt_minRune c)
      · intro h
        exact absurd h (List.Lex.not_nil_right _ _)
    | cons d b =>
      simp only [List.cons_append]
      have iha := ih b (fun x hx => ha x (List.mem_cons_of_mem _ hx))
        (fun x hx => hb x (List.mem_cons_of_mem _ hx))
      constructor
      · intro h
        cases h with
        | cons h1 => exact List.Lex.cons (iha.1 h1)
        | rel h1 => exact List.Lex.rel h1
      · intro h
        cases h with
        | cons h1 => exact List.Lex.cons (iha.2 h1)
        | rel h1 => exact List.Lex.rel h1

/-! ## The ledger stays in key order -/

theorem insertKV_ascending (key : String) (value : Bytes) (l : List (String × Bytes))
    (h : KeysAscending l) : KeysAscending (insertKV key value l) := by
  unfold KeysAscending at h ⊢
  induction l with
  | nil => simp [insertKV]
  | cons hd rest ih =>
    obtain ⟨k, v⟩ := hd
    rw [List.pairwise_cons] at h
    obtain ⟨hhead, htail⟩ := h
    unfold insertKV
    split_ifs with h1 h2
    · subst h1
      exact List.pairwise_cons.2 ⟨hhead, htail⟩
    · refine List.pairwise_cons.2 ⟨?_, List.pairwise_cons.2 ⟨hhead, htail⟩⟩
      intro x hx
      rcases List.mem_cons.1 hx with hx | hx
      · subst hx
        exact h2
      · exact lt_trans h2 (hhead x hx)
    · have hne : key.data ≠ k.data := fun he => h1 (String.ext he)
      have hlt : k.data < key.data := by
        rcases lt_trichotomy key.data k.data with h3 | h3 | h3
        · exact absurd h3 h2
        · exact absurd h3 hne
        · exact h3
      refine List.pairwise_cons.2 ⟨?_, ih htail⟩
      intro x hx
      rcases mem_insertKV key value rest x hx with hx | hx
      · subst hx
        exact hlt
      · exact hhead x hx

theorem ascending_step (op : Op) (stub : Stub) (h : KeysAscending stub.State) :
    KeysAscending (op.run stub).2.State := by
  cases hres : (op.run stub).1 with
  | error err => rw [op_error_snd op stub err hres]; exact h
  | ok u =>
    obtain ⟨wkey, bytes, hs, _⟩ := op_ok_state op stub hres
    rw [hs]
    exact insertKV_ascending wkey bytes stub.State h

theorem ascending_runOps (ops : List Op) (stub : Stub) (h : KeysAscending stub.State) :
    KeysAscending (runOps ops stub).State := by
  induction ops generalizing stub with
  | nil => exact h
  | cons op ops ih => exact ih _ (ascending_step op stub h)

theorem reachable_ascending (stub : Stub) (h : Reachable stub) : KeysAscending stub.State := by
  obtain ⟨ops, hops⟩ := h
  rw [hops]
  apply ascending_runOps
  exact List.Pairwise.nil

/-! ## Which pairs a scan returns -/

/-- An Owner key lies in the range of the Owner scan. -/
theorem ownerKey_in_owner_range (id key : String) (h : ownerKey id = .ok key) :
    ¬ key.data < (minUnicodeRuneValue :: prefixOwner.data ++ [minUnicodeRuneValue]) ∧
    key.data < (minUnicodeRuneValue :: prefixOwner.data ++ [minUnicodeRuneValue])
      ++ [maxUnicodeRuneValue] := by
  have hv := validate_ok id (createCompositeKey_single_valid _ _ _ h)
  have hk := createCompositeKey_single _ _ _ h
  have hk1 : key.data = (minUnicodeRuneValue :: prefixOwner.data ++ [minUnicodeRuneValue])
      ++ (id.data ++ [minUnicodeRuneValue]) := by
    rw [hk]
    simp
  rw [hk1]
  refine ⟨not_append_lt_self _ _, ?_⟩
  rw [lex_append_left_iff]
  cases hid : id.data with
  | nil => exact List.Lex.rel (by decide)
  | cons c rest =>
    have hc := (hv c (by rw [hid]; exact List.mem_cons_self _ _)).2
    exact List.Lex.rel (lt_maxRune c hc)

/-- A House key lies in the range of the House scan. -/
theorem houseKey_in_house_range (id key : String) (h : houseKey id = .ok key) :
    ¬ key.data < (minUnicodeRuneValue :: prefixHouse.data ++ [minUnicodeRuneValue]) ∧
    key.data < (minUnicodeRuneValue :: prefixHouse.data ++ [minUnicodeRuneValue])
      ++ [maxUnicodeRuneValue] := by
  have hv := validate_ok id (createCompositeKey_single_valid _ _ _ h)
  have hk := createCompositeKey_single _ _ _ h
  have hk1 : key.data = (minUnicodeRuneValue :: prefixHouse.data ++ [minUnicodeRuneValue])
      ++ (id.data ++ [minUnicodeRuneValue]) := by
    rw [hk]
    simp
  rw [hk1]
  refine ⟨not_append_lt_self _ _, ?_⟩
  rw [lex_append_left_iff]
  cases hid : id.data with
  | nil => exact List.Lex.rel (by decide)
  | cons c rest =>
    have hc := (hv c (by rw [hid]; exact List.mem_cons_self _ _)).2
    exact List.Lex.rel (lt_maxRune c hc)

/-- A House key lies below the range of the Owner scan. -/
theorem houseKey_below_owner_range (id key : String) (h : houseKey id = .ok key) :
    key.data < (minUnicodeRuneValue :: prefixOwner.data ++ [minUnicodeRuneValue]) := by
  rw [createCompositeKey_single _ _ _ h]
  simp only [prefixOwner, prefixHouse, List.cons_append]
  exact List.Lex.cons (List.Lex.rel (by decide))

/-! ## What the list queries return on a consistent ledger -/

theorem compositeKey_lt_iff (objectType a b ka kb : String)
    (ha : createCompositeKey objectType [a] = .ok ka)
    (hb : createCompositeKey objectType [b] = .ok kb) :
    ka.data < kb.data ↔ a.data < b.data := by
  have va := validate_ok a (createCompositeKey_single_valid _ _ _ ha)
  have vb := validate_ok b (createCompositeKey_single_valid _ _ _ hb)
  rw [createCompositeKey_single _ _ _ ha, createCompositeKey_single _ _ _ hb]
  rw [lex_append_left_iff, lex_cons_same]
  exact lex_closed_iff a.data b.data (fun c hc => (va c hc).1) (fun c hc => (vb c hc).1)

theorem forall2_mem_right {α β : Type} (R : α → β → Prop) (l1 : List α) (l2 : List β)
    (h : List.Forall₂ R l1 l2) (b : β) (hb : b ∈ l2) : ∃ a ∈ l1, R a b := by
  induction h with
  | nil => exact absurd hb (List.not_mem_nil _)
  | cons hr _ ih =>
    rcases List.mem_cons.1 hb with hb | hb
    · subst hb
      exact ⟨_, List.mem_cons_self _ _, hr⟩
    · obtain ⟨a, ha, hab⟩ := ih hb
      exact ⟨a, List.mem_cons_of_mem _ ha, hab⟩

theorem forall2_mem_left {α β : Type} (R : α → β → Prop) (l1 : List α) (l2 : List β)
    (h : List.Forall₂ R l1 l2) (a : α) (ha : a ∈ l1) : ∃ b ∈ l2, R a b := by
  induction h with
  | nil => exact absurd ha (List.not_mem_nil _)
  | cons hr _ ih =>
    rcases List.mem_cons.1 ha with ha | ha
    · subst ha
      exact ⟨_, List.mem_cons_self _ _, hr⟩
    · obtain ⟨b, hb, hab⟩ := ih ha
      exact ⟨b, List.mem_cons_of_mem _ hb, hab⟩

theorem forall2_pairwise {α β : Type} (R : α → β → Prop) (P : α → α → Prop)
    (Q : β → β → Prop) (hPQ : ∀ a1 a2 b1 b2, R a1 b1 → R a2 b2 → P a1 a2 → Q b1 b2)
    (l1 : List α) (l2 : List β) (h : List.Forall₂ R l1 l2) (hp : l1.Pairwise P) :
    l2.Pairwise Q := by
  induction h with
  | nil => exact List.Pairwise.nil
  | cons hr hrest ih =>
    rw [List.pairwise_cons] at hp ⊢
    refine ⟨?_, ih hp.2⟩
    intro b hb
    obtain ⟨a, ha, hab⟩ := forall2_mem_right R _ _ hrest b hb
    exact hPQ _ _ _ _ hr hab (hp.1 a ha)

theorem listOwners_loop_spec (iter : List (String × Bytes)) (acc : List Owner)
    (h : ∀ kv ∈ iter, ∃ goowner : Owner, ownerKey goowner.Id = .ok kv.1 ∧
      jsonMarshalOwner goowner = .ok kv.2) :
    ∃ goowners, ListOwners.loop acc iter = .ok (acc ++ goowners) ∧
      List.Forall₂ (fun kv goowner => ownerKey goowner.Id = .ok kv.1 ∧
        jsonMarshalOwner goowner = .ok kv.2) iter goowners := by
  induction iter generalizing acc with
  | nil => exact ⟨[], by simp [ListOwners.loop], List.Forall₂.nil⟩
  | cons kv iter ih =>
    obtain ⟨goowner, hk, hj⟩ := h kv (List.mem_cons_self _ _)
    obtain ⟨rest, hloop, hall⟩ := ih (acc ++ [goowner])
      (fun x hx => h x (List.mem_cons_of_mem _ hx))
    refine ⟨goowner :: rest, ?_, List.Forall₂.cons ⟨hk, hj⟩ hall⟩
    have hdec : jsonUnmarshalOwner kv.2 = .ok goowner := by
      simp only [jsonMarshalOwner, Except.ok.injEq] at hj
      rw [← hj]
      rfl
    simp only [ListOwners.loop, hdec]
    rw [hloop]
    simp

theorem listHouses_loop_spec (iter : List (String × Bytes)) (acc : List House)
    (h : ∀ kv ∈ iter, ∃ gohouse : House, houseKey gohouse.Id = .ok kv.1 ∧
      jsonMarshalHouse gohouse = .ok kv.2) :
    ∃ gohouses, ListHouses.loop acc iter = .ok (acc ++ gohouses) ∧
      List.Forall₂ (fun kv gohouse => houseKey gohouse.Id = .ok kv.1 ∧
        jsonMarshalHouse gohouse = .ok kv.2) iter gohouses := by
  induction iter generalizing acc with
  | nil => exact ⟨[], by simp [ListHouses.loop], List.Forall₂.nil⟩
  | cons kv iter ih =>
    obtain ⟨gohouse, hk, hj⟩ := h kv (List.mem_cons_self _ _)
    obtain ⟨rest, hloop, hall⟩ := ih (acc ++ [gohouse])
      (fun x hx => h x (List.mem_cons_of_mem _ hx))
    refine ⟨gohouse :: rest, ?_, List.Forall₂.cons ⟨hk, hj⟩ hall⟩
    have hdec : jsonUnmarshalHouse kv.2 = .ok gohouse := by
      simp only [jsonMarshalHouse, Except.ok.injEq] at hj
      rw [← hj]
      rfl
    simp only [ListHouses.loop, hdec]
    rw [hloop]
    simp

/-- On a consistent ledger in key order whose Owner scan does not fail,
`ListOwners` returns the Owners of the pairs under Owner keys, in the order
of their keys. -/
theorem listOwners_spec (stub : Stub) (hc : Consistent stub) (ha : KeysAscending stub.State)
    (hf : stub.fault (.getStateByPartialCompositeKey prefixOwner) = none) :
    ∃ goowners, (ListOwners stub).1 = .ok goowners ∧
      (∀ goowner, goowner ∈ goowners ↔
        ∃ kv ∈ stub.State, ownerKey goowner.Id = .ok kv.1 ∧
          jsonMarshalOwner goowner = .ok kv.2) ∧
      goowners.Pairwise (fun a b => ∃ ka kb, ownerKey a.Id = .ok ka ∧ ownerKey b.Id = .ok kb ∧
        ka.data < kb.data) := by
  rw [listOwners_run, getStateByPartialCompositeKey_run, ownerStartKey]
  simp only [hf]
  have hentries : ∀ kv ∈ stub.State.filter (fun kv =>
      decide (¬ kv.1.data < (minUnicodeRuneValue :: prefixOwner.data ++ [minUnicodeRuneValue]))
        && decide (kv.1.data <
          (minUnicodeRuneValue :: prefixOwner.data ++ [minUnicodeRuneValue])
            ++ [maxUnicodeRuneValue])),
      ∃ goowner : Owner, ownerKey goowner.Id = .ok kv.1 ∧ jsonMarshalOwner goowner = .ok kv.2 := by
    intro kv hkv
    obtain ⟨hmem, hrange⟩ := List.mem_filter.1 hkv
    simp only [Bool.and_eq_true, decide_eq_true_eq] at hrange
    rcases hc kv hmem with h | ⟨gohouse, h1, _, _⟩
    · exact h
    · exact absurd (houseKey_below_owner_range _ _ h1) hrange.1
  obtain ⟨goowners, hloop, hall⟩ := listOwners_loop_spec _ [] hentries
  refine ⟨goowners, by simpa using hloop, ?_, ?_⟩
  · intro goowner
    constructor
    · intro hm
      obtain ⟨kv, hkv, hk, hj⟩ := forall2_mem_right _ _ _ hall goowner hm
      exact ⟨kv, (List.mem_filter.1 hkv).1, hk, hj⟩
    · rintro ⟨kv, hkv, hk, hj⟩
      have hin : kv ∈ stub.State.filter (fun kv =>
          decide (¬ kv.1.data <
            (minUnicodeRuneValue :: prefixOwner.data ++ [minUnicodeRuneValue]))
          && decide (kv.1.data <
            (minUnicodeRuneValue :: prefixOwner.data ++ [minUnicodeRuneValue])
              ++ [maxUnicodeRuneValue])) := by
        refine List.mem_filter.2 ⟨hkv, ?_⟩
        simp only [Bool.and_eq_true, decide_eq_true_eq]
        exact ownerKey_in_owner_range _ _ hk
      obtain ⟨other, hother, hk2, _⟩ := forall2_mem_left _ _ _ hall kv hin
      have hid : other.Id = goowner.Id := ownerKey_inj _ _ _ hk2 hk
      have : other = goowner := by
        cases other
        cases goowner
        simpa using hid
      exact this ▸ hother
  · have ha1 : stub.State.Pairwise (fun a b => a.1.data < b.1.data) := ha
    refine forall2_pairwise _ (fun a b => a.1.data < b.1.data) _ ?_ _ _ hall
      (List.Pairwise.filter _ ha1)
    intro kv1 kv2 o1 o2 h1 h2 hlt
    exact ⟨kv1.1, kv2.1, h1.1, h2.1, hlt⟩

/-- On a consistent ledger in key order whose House scan does not fail,
`ListHouses` returns the Houses of the pairs under House keys, in the order
of their keys. -/
theorem listHouses_spec (stub : Stub) (hc : Consistent stub) (ha : KeysAscending stub.State)
    (hf : stub.fault (.getStateByPartialCompositeKey prefixHouse) = none) :
    ∃ gohouses, (ListHouses stub).1 = .ok gohouses ∧
      (∀ gohouse, gohouse ∈ gohouses ↔
        ∃ kv ∈ stub.State, houseKey gohouse.Id = .ok kv.1 ∧
          jsonMarshalHouse gohouse = .ok kv.2) ∧
      gohouses.Pairwise (fun a b => ∃ ka kb, houseKey a.Id = .ok ka ∧ houseKey b.Id = .ok kb ∧
        ka.data < kb.data) := by
  rw [listHouses_run, getStateByPartialCompositeKey_run, houseStartKey]
  simp only [hf]
  have hentries : ∀ kv ∈ stub.State.filter (fun kv =>
      decide (¬ kv.1.data < (minUnicodeRuneValue :: prefixHouse.data ++ [minUnicodeRuneValue]))
        && decide (kv.1.data <
          (minUnicodeRuneValue :: prefixHouse.data ++ [minUnicodeRuneValue])
            ++ [maxUnicodeRuneValue])),
      ∃ gohouse : House, houseKey gohouse.Id = .ok kv.1 ∧ jsonMarshalHouse gohouse = .ok kv.2 := by
    intro kv hkv
    obtain ⟨hmem, hrange⟩ := List.mem_filter.1 hkv
    simp only [Bool.and_eq_true, decide_eq_true_eq] at hrange
    rcases hc kv hmem with ⟨goowner, h1, _⟩ | ⟨gohouse, h1, h2, _⟩
    · exact absurd hrange.2 (ownerKey_not_in_house_range _ _ h1)
    · exact ⟨gohouse, h1, h2⟩
  obtain ⟨gohouses, hloop, hall⟩ := listHouses_loop_spec _ [] hentries
  refine ⟨gohouses, by simpa using hloop, ?_, ?_⟩
  · intro gohouse
    constructor
    · intro hm
      obtain ⟨kv, hkv, hk, hj⟩ := forall2_mem_right _ _ _ hall gohouse hm
      exact ⟨kv, (List.mem_filter.1 hkv).1, hk, hj⟩
    · rintro ⟨kv, hkv, hk, hj⟩
      have hin : kv ∈ stub.State.filter (fun kv =>
          decide (¬ kv.1.data <
            (minUnicodeRuneValue :: prefixHouse.data ++ [minUnicodeRuneValue]))
          && decide (kv.1.data <
            (minUnicodeRuneValue :: prefixHouse.data ++ [minUnicodeRuneValue])
              ++ [maxUnicodeRuneValue])) := by
        refine List.mem_filter.2 ⟨hkv, ?_⟩
        simp only [Bool.and_eq_true, decide_eq_true_eq]
        exact houseKey_in_house_range _ _ hk
      obtain ⟨other, hother, _, hj2⟩ := forall2_mem_left _ _ _ hall kv hin
      have : other = gohouse := by
        simp only [jsonMarshalHouse, Except.ok.injEq] at hj hj2
        have h3 := hj2.trans hj.symm
        simp only [Bytes.mk.injEq, Except.ok.injEq] at h3
        exact h3.2.1
      exact this ▸ hother
  · have ha1 : stub.State.Pairwise (fun a b => a.1.data < b.1.data) := ha
    refine forall2_pairwise _ (fun a b => a.1.data < b.1.data) _ ?_ _ _ hall
      (List.Pairwise.filter _ ha1)
    intro kv1 kv2 o1 o2 h1 h2 hlt
    exact ⟨kv1.1, kv2.1, h1.1, h2.1, hlt⟩

/-! ## The Owners of a ledger and the calls that stored them -/

theorem mem_insertKV_self (key : String) (value : Bytes) (l : List (String × Bytes)) :
    (key, value) ∈ insertKV key value l := by
  induction l with
  | nil => simp [insertKV]
  | cons hd rest ih =>
    obtain ⟨k, v⟩ := hd
    unfold insertKV
    split_ifs
    · exact List.mem_cons_self _ _
    · exact List.mem_cons_self _ _
    · exact List.mem_cons_of_mem _ ih

theorem mem_insertKV_of_ne (key : String) (value : Bytes) (l : List (String × Bytes))
    (kv : String × Bytes) (h : kv ∈ l) (hne : kv.1 ≠ key) : kv ∈ insertKV key value l := by
  induction l with
  | nil => exact absurd h (List.not_mem_nil _)
  | cons hd rest ih =>
    obtain ⟨k, v⟩ := hd
    unfold insertKV
    split_ifs with h1 h2
    · rcases List.mem_cons.1 h with h | h
      · subst h
        exact absurd h1.symm hne
      · exact List.mem_cons_of_mem _ h
    · exact List.mem_cons_of_mem _ h
    · rcases List.mem_cons.1 h with h | h
      · subst h
        exact List.mem_cons_self _ _
      · exact List.mem_cons_of_mem _ (ih h)

theorem ne_of_lookup_none (key : String) (l : List (String × Bytes))
    (h : l.lookup key = none) (kv : String × Bytes) (hkv : kv ∈ l) : kv.1 ≠ key := by
  induction l with
  | nil => exact absurd hkv (List.not_mem_nil _)
  | cons hd rest ih =>
    obtain ⟨k, v⟩ := hd
    simp only [List.lookup] at h
    cases hk : key == k with
    | true => simp [hk] at h
    | false =>
      rw [hk] at h
      rcases List.mem_cons.1 hkv with hkv | hkv
      · subst hkv
        intro he
        have hk1 : ¬ key = k := by simpa using hk
        exact hk1 he.symm
      · exact ih h hkv

/-- Writing under a House key neither adds nor removes a pair under an
Owner key. -/
theorem house_write_owner_entries (stub : Stub) (wkey : String) (bytes : Bytes)
    (gohouse : House) (hw : houseKey gohouse.Id = .ok wkey) (goowner : Owner) :
    (∃ kv ∈ insertKV wkey bytes stub.State, ownerKey goowner.Id = .ok kv.1 ∧
        jsonMarshalOwner goowner = .ok kv.2) ↔
      (∃ kv ∈ stub.State, ownerKey goowner.Id = .ok kv.1 ∧
        jsonMarshalOwner goowner = .ok kv.2) := by
  constructor
  · rintro ⟨kv, hkv, hk, hj⟩
    rcases mem_insertKV wkey bytes stub.State kv hkv with h | h
    · subst h
      exact (ownerKey_ne_houseKey _ _ _ hk hw).elim
    · exact ⟨kv, h, hk, hj⟩
  · rintro ⟨kv, hkv, hk, hj⟩
    refine ⟨kv, mem_insertKV_of_ne wkey bytes stub.State kv hkv ?_, hk, hj⟩
    rintro rfl
    exact ownerKey_ne_houseKey _ _ _ hk hw

/-- One operation adds the Owner of a successful `AddOwner` to the Owners
of the ledger and changes nothing else about them. -/
theorem owner_entries_step (op : Op) (stub : Stub) (goowner : Owner) :
    (∃ kv ∈ (op.run stub).2.State, ownerKey goowner.Id = .ok kv.1 ∧
        jsonMarshalOwner goowner = .ok kv.2) ↔
      (∃ kv ∈ stub.State, ownerKey goowner.Id = .ok kv.1 ∧
        jsonMarshalOwner goowner = .ok kv.2) ∨
      (op = .addOwner goowner ∧ (AddOwner goowner stub).1 = .ok ()) := by
  cases hres : (op.run stub).1 with
  | error err =>
    rw [op_error_snd op stub err hres]
    constructor
    · exact Or.inl
    · rintro (h | ⟨hop, hok⟩)
      · exact h
      · subst hop
        rw [show (Op.addOwner goowner).run stub = AddOwner goowner stub from rfl, hok] at hres
        exact absurd hres (by simp)
  | ok u =>
    cases op with
    | addOwner added =>
      have hres1 : (AddOwner added stub).1 = .ok () := hres
      obtain ⟨key, jsonowner, hk, hj, hc, hs⟩ := addOwner_ok added stub hres1
      obtain ⟨key1, hk1, _, hl⟩ := (checkOwner_ok_iff _ _ _).1 hc
      rw [hk] at hk1
      cases hk1
      have hnone : stub.State.lookup key = none := by
        cases hl1 : stub.State.lookup key with
        | none => rfl
        | some bytes => simp [hl1] at hl
      show (∃ kv ∈ (AddOwner added stub).2.State, _) ↔ _
      rw [hs]
      constructor
      · rintro ⟨kv, hkv, hk2, hj2⟩
        rcases mem_insertKV key jsonowner stub.State kv hkv with h | h
        · subst h
          have hid : goowner.Id = added.Id := ownerKey_inj _ _ _ hk2 hk
          have : goowner = added := by
            cases goowner
            cases added
            simpa using hid
          subst this
          exact Or.inr ⟨rfl, hres1⟩
        · exact Or.inl ⟨kv, h, hk2, hj2⟩
      · rintro (⟨kv, hkv, hk2, hj2⟩ | ⟨hop, _⟩)
        · exact ⟨kv, mem_insertKV_of_ne key jsonowner stub.State kv hkv
            (ne_of_lookup_none key stub.State hnone kv hkv), hk2, hj2⟩
        · cases hop
          exact ⟨(key, jsonowner), mem_insertKV_self key jsonowner stub.State, hk, hj⟩
    | addHouse gohouse =>
      obtain ⟨key, jsonhouse, hk, _, _, _, hs⟩ := addHouse_ok gohouse stub hres
      show (∃ kv ∈ (AddHouse gohouse stub).2.State, _) ↔ _
      rw [hs]
      simp only [house_write_owner_entries stub key jsonhouse gohouse hk, reduceCtorEq,
        false_and, or_false]
    | updateHouse gohouse =>
      obtain ⟨key, jsonhouse, hk, _, _, _, hs⟩ := updateHouse_ok gohouse stub hres
      show (∃ kv ∈ (UpdateHouse gohouse stub).2.State, _) ↔ _
      rw [hs]
      simp only [house_write_owner_entries stub key jsonhouse gohouse hk, reduceCtorEq,
        false_and, or_false]
    | transferHouse houseId newownerId =>
      have h1 : (TransferHouse houseId newownerId stub).1 = .ok () := hres
      show (∃ kv ∈ (TransferHouse houseId newownerId stub).2.State, _) ↔ _
      rw [transferHouse_run] at h1 ⊢
      cases hg : (GetHouse houseId stub).1 with
      | error err => simp [hg] at h1
      | ok gohouse =>
        simp only [hg] at h1 ⊢
        obtain ⟨key, jsonhouse, hk, _, _, _, hs⟩ := updateHouse_ok _ stub h1
        rw [hs]
        simp only [house_write_owner_entries stub key jsonhouse _ hk, reduceCtorEq,
          false_and, or_false]

theorem owner_entries_runOps (ops : List Op) (stub : Stub) (goowner : Owner) :
    (∃ kv ∈ (runOps ops stub).State, ownerKey goowner.Id = .ok kv.1 ∧
        jsonMarshalOwner goowner = .ok kv.2) ↔
      (∃ kv ∈ stub.State, ownerKey goowner.Id = .ok kv.1 ∧
        jsonMarshalOwner goowner = .ok kv.2) ∨
      goowner ∈ addedOwners ops stub := by
  induction ops generalizing stub with
  | nil => simp [runOps, addedOwners]
  | cons op ops ih =>
    rw [runOps, ih, owner_entries_step]
    have hadded : goowner ∈ addedOwners (op :: ops) stub ↔
        (op = .addOwner goowner ∧ (AddOwner goowner stub).1 = .ok ()) ∨
          goowner ∈ addedOwners ops (op.run stub).2 := by
      cases op with
      | addOwner added =>
        simp only [addedOwners]
        by_cases hok : (AddOwner added stub).1 = .ok ()
        · simp only [hok, if_true, List.mem_cons, Op.addOwner.injEq]
          constructor
          · rintro (h | h)
            · subst h
              exact Or.inl ⟨rfl, hok⟩
            · exact Or.inr h
          · rintro (⟨h, _⟩ | h)
            · exact Or.inl h.symm
            · exact Or.inr h
        · simp only [hok, if_false, Op.addOwner.injEq]
          constructor
          · exact Or.inr
          · rintro (⟨h, h2⟩ | h)
            · subst h
              exact absurd h2 hok
            · exact h
      | addHouse gohouse => simp [addedOwners]
      | updateHouse gohouse => simp [addedOwners]
      | transferHouse houseId newownerId => simp [addedOwners]
    rw [hadded, or_assoc]

/-! ## ListOwners and ListHouses on reachable ledgers -/

theorem runOps_faults (ops : List Op) (stub : Stub) : (runOps ops stub).faults = stub.faults := by
  induction ops generalizing stub with
  | nil => rfl
  | cons op ops ih => rw [runOps, ih, op_faults]

theorem reachable_runOps (ops : List Op) (faults : List (StoreCall × String)) :
    Reachable (runOps ops ⟨[], faults⟩) := by
  refine ⟨ops, ?_⟩
  rw [runOps_faults]

theorem listOwners_ok_fault (stub : Stub) (goowners : List Owner)
    (h : (ListOwners stub).1 = .ok goowners) :
    stub.fault (.getStateByPartialCompositeKey prefixOwner) = none := by
  rw [listOwners_run, getStateByPartialCompositeKey_run, ownerStartKey] at h
  cases hf : stub.fault (.getStateByPartialCompositeKey prefixOwner) with
  | none => rfl
  | some err => simp [hf] at h

theorem listHouses_ok_fault (stub : Stub) (gohouses : List House)
    (h : (ListHouses stub).1 = .ok gohouses) :
    stub.fault (.getStateByPartialCompositeKey prefixHouse) = none := by
  rw [listHouses_run, getStateByPartialCompositeKey_run, houseStartKey] at h
  cases hf : stub.fault (.getStateByPartialCompositeKey prefixHouse) with
  | none => rfl
  | some err => simp [hf] at h

/-- What `ListOwners` returns on a reachable ledger is in the order of the
Owner keys, which is the order of the Ids. -/
theorem listOwners_reachable (stub : Stub) (hr : Reachable stub) (goowners : List Owner)
    (h : (ListOwners stub).1 = .ok goowners) :
    (∀ goowner, goowner ∈ goowners ↔
      ∃ kv ∈ stub.State, ownerKey goowner.Id = .ok kv.1 ∧ jsonMarshalOwner goowner = .ok kv.2) ∧
    goowners.Pairwise (fun a b => ∃ ka kb, ownerKey a.Id = .ok ka ∧ ownerKey b.Id = .ok kb ∧
      ka.data < kb.data) ∧
    goowners.Pairwise (fun a b => a.Id.data < b.Id.data) := by
  obtain ⟨l, hl, hmem, hsorted⟩ := listOwners_spec stub (reachable_consistent stub hr)
    (reachable_ascending stub hr) (listOwners_ok_fault stub goowners h)
  rw [h] at hl
  cases hl
  refine ⟨hmem, hsorted, hsorted.imp ?_⟩
  rintro a b ⟨ka, kb, ha, hb, hlt⟩
  exact (compositeKey_lt_iff prefixOwner a.Id b.Id ka kb ha hb).1 hlt

/-- What `ListHouses` returns on a reachable ledger is in the order of the
House keys, which is the order of the Ids. -/
theorem listHouses_reachable (stub : Stub) (hr : Reachable stub) (gohouses : List House)
    (h : (ListHouses stub).1 = .ok gohouses) :
    (∀ gohouse, gohouse ∈ gohouses ↔
      ∃ kv ∈ stub.State, houseKey gohouse.Id = .ok kv.1 ∧ jsonMarshalHouse gohouse = .ok kv.2) ∧
    gohouses.Pairwise (fun a b => ∃ ka kb, houseKey a.Id = .ok ka ∧ houseKey b.Id = .ok kb ∧
      ka.data < kb.data) ∧
    gohouses.Pairwise (fun a b => a.Id.data < b.Id.data) := by
  obtain ⟨l, hl, hmem, hsorted⟩ := listHouses_spec stub (reachable_consistent stub hr)
    (reachable_ascending stub hr) (listHouses_ok_fault stub gohouses h)
  rw [h] at hl
  cases hl
  refine ⟨hmem, hsorted, hsorted.imp ?_⟩
  rintro a b ⟨ka, kb, ha, hb, hlt⟩
  exact (compositeKey_lt_iff prefixHouse a.Id b.Id ka kb ha hb).1 hlt

/-- Two lists in strictly ascending order of Ids with the same members are
the same list. -/
theorem owners_eq_of_same_members (l1 l2 : List Owner)
    (h1 : l1.Pairwise (fun a b => a.Id.data < b.Id.data))
    (h2 : l2.Pairwise (fun a b => a.Id.data < b.Id.data))
    (hmem : ∀ goowner, goowner ∈ l1 ↔ goowner ∈ l2) : l1 = l2 := by
  haveI : IsAntisymm Owner (fun a b => a.Id.data < b.Id.data) :=
    ⟨fun a b hab hba => absurd (lt_trans hab hba) (lt_irrefl _)⟩
  have n1 : l1.Nodup := h1.imp (fun hab he => by subst he; exact lt_irrefl _ hab)
  have n2 : l2.Nodup := h2.imp (fun hab he => by subst he; exact lt_irrefl _ hab)
  exact List.eq_of_perm_of_sorted ((List.perm_ext_iff_of_nodup n1 n2).2 hmem) h1 h2

theorem houses_eq_of_same_members (l1 l2 : List House)
    (h1 : l1.Pairwise (fun a b => a.Id.data < b.Id.data))
    (h2 : l2.Pairwise (fun a b => a.Id.data < b.Id.data))
    (hmem : ∀ gohouse, gohouse ∈ l1 ↔ gohouse ∈ l2) : l1 = l2 := by
  haveI : IsAntisymm House (fun a b => a.Id.data < b.Id.data) :=
    ⟨fun a b hab hba => absurd (lt_trans hab hba) (lt_irrefl _)⟩
  have n1 : l1.Nodup := h1.imp (fun hab he => by subst he; exact lt_irrefl _ hab)
  have n2 : l2.Nodup := h2.imp (fun hab he => by subst he; exact lt_irrefl _ hab)
  exact List.eq_of_perm_of_sorted ((List.perm_ext_iff_of_nodup n1 n2).2 hmem) h1 h2

/-- With the probe answering false and the write not failing, `AddOwner`
succeeds and the probe answers true afterwards. -/
theorem addOwner_of_checkOwner_false (goowner : Owner) (stub : Stub)
    (hc : (CheckOwner goowner.Id stub).1 = .ok false)
    (hp : ∀ key, ownerKey goowner.Id = .ok key → stub.fault (.putState key) = none) :
    (AddOwner goowner stub).1 = .ok () ∧
    (CheckOwner goowner.Id (AddOwner goowner stub).2).1 = .ok true := by
  obtain ⟨key, hk, hf, _⟩ := (checkOwner_ok_iff _ _ _).1 hc
  have hok : (AddOwner goowner stub).1 = .ok () := by
    rw [addOwner_run, hc]
    simp [hk, hp key hk, jsonMarshalOwner]
  refine ⟨hok, ?_⟩
  obtain ⟨key1, jsonowner, hk1, _, _, hs⟩ := addOwner_ok goowner stub hok
  rw [hk] at hk1
  cases hk1
  rw [hs, checkOwner_ok_iff]
  exact ⟨key, hk, hf, by simp only [lookup_insertKV_self]; rfl⟩

/-! ## Writing the same pair again -/

theorem insertKV_idem (key : String) (value : Bytes) (l : List (String × Bytes)) :
    insertKV key value (insertKV key value l) = insertKV key value l := by
  induction l with
  | nil => simp [insertKV]
  | cons hd rest ih =>
    obtain ⟨k, v⟩ := hd
    by_cases h1 : key = k
    · simp [insertKV, h1]
    · by_cases h2 : key.data < k.data
      · simp [insertKV, h1, h2]
      · simp only [insertKV, h1, h2, if_false, ih]

/-- On a ledger in key order, writing under a key the bytes it already
holds leaves the ledger as it is. -/
theorem insertKV_of_lookup (key : String) (value : Bytes) (l : List (String × Bytes))
    (ha : KeysAscending l) (hl : l.lookup key = some value) : insertKV key value l = l := by
  unfold KeysAscending at ha
  induction l with
  | nil => simp [List.lookup] at hl
  | cons hd rest ih =>
    obtain ⟨k, v⟩ := hd
    rw [List.pairwise_cons] at ha
    simp only [List.lookup] at hl
    cases hk : key == k with
    | true =>
      rw [hk] at hl
      have hkey : key = k := by simpa using hk
      simp only [Option.some.injEq] at hl
      subst hkey
      subst hl
      simp [insertKV]
    | false =>
      rw [hk] at hl
      have hne : ¬ key = k := by simpa using hk
      have hmem := mem_of_lookup key value rest hl
      have hlt : k.data < key.data := ha.1 (key, value) hmem
      have hnlt : ¬ key.data < k.data := fun h => lt_irrefl _ (lt_trans h hlt)
      simp only [insertKV, hne, hnlt, if_false, ih ha.2 hl]

/-- A successful `UpdateHouse` found the write on its key not failing. -/
theorem updateHouse_ok_put (gohouse : House) (stub : Stub)
    (h : (UpdateHouse gohouse stub).1 = .ok ()) (key : String)
    (hk : houseKey gohouse.Id = .ok key) : stub.fault (.putState key) = none := by
  rw [updateHouse_run] at h
  cases hc : (CheckHouse gohouse.Id stub).1 with
  | error err => simp [hc] at h
  | ok found =>
    cases found with
    | false => simp [hc] at h
    | true =>
      cases ho : (CheckOwner gohouse.OwnerId stub).1 with
      | error err => simp [hc, ho] at h
      | ok ok =>
        cases ok with
        | false => simp [hc, ho] at h
        | true =>
          cases hp : stub.fault (.putState key) with
          | some err => simp [hc, hk, ho, hp, jsonMarshalHouse] at h
          | none => rfl

/-- A second `UpdateHouse` of the same House succeeds and leaves the stub of
the first. -/
theorem updateHouse_twice (gohouse : House) (stub : Stub)
    (h : (UpdateHouse gohouse stub).1 = .ok ()) :
    UpdateHouse gohouse (UpdateHouse gohouse stub).2 = (.ok (), (UpdateHouse gohouse stub).2) := by
  obtain ⟨key, jsonhouse, hk, hj, hc, ho, hs⟩ := updateHouse_ok gohouse stub h
  have hp := updateHouse_ok_put gohouse stub h key hk
  rw [hs, updateHouse_run, checkHouse_insert _ key jsonhouse stub hc,
    checkOwner_insert _ key jsonhouse stub ho, hk, hj]
  simp only [fault_state, hp, insertKV_idem]

/-- On a reachable ledger, a successful `UpdateHouse` of the House that is
already stored leaves the stub as it is. -/
theorem updateHouse_same (gohouse : House) (stub : Stub) (hr : Reachable stub)
    (hg : (GetHouse gohouse.Id stub).1 = .ok gohouse)
    (h : (UpdateHouse gohouse stub).1 = .ok ()) : (UpdateHouse gohouse stub).2 = stub := by
  obtain ⟨key, jsonhouse, hk, hj, hc, _, hs⟩ := updateHouse_ok gohouse stub h
  obtain ⟨key1, bytes, hk1, hl, hget⟩ := getHouse_of_checkHouse_true _ stub hc
  rw [hk] at hk1
  cases hk1
  rw [hget] at hg
  have hdec : jsonUnmarshalHouse bytes = .ok gohouse := hg
  have hbytes : bytes = jsonhouse := by
    rcases reachable_consistent stub hr _ (mem_of_lookup key bytes stub.State hl) with
      ⟨goowner, h1, _⟩ | ⟨stored, _, h2, _⟩
    · exact (ownerKey_ne_houseKey _ _ _ h1 hk).elim
    · simp only [jsonMarshalHouse, Except.ok.injEq] at h2 hj
      rw [← h2] at hdec
      simp only [jsonUnmarshalHouse, Except.ok.injEq] at hdec
      rw [← h2, ← hj, hdec]
  rw [hs, insertKV_of_lookup key jsonhouse stub.State (reachable_ascending stub hr)
    (hbytes ▸ hl)]

/-! ## What a write leaves alone -/

theorem checkOwner_insert_ne (id wkey : String) (bytes : Bytes) (stub : Stub)
    (hne : ∀ key, ownerKey id = .ok key → key ≠ wkey) :
    (CheckOwner id { stub with State := insertKV wkey bytes stub.State }).1
      = (CheckOwner id stub).1 := by
  rw [checkOwner_run, checkOwner_run]
  cases hk : ownerKey id with
  | error err => rfl
  | ok key =>
    simp only [fault_state]
    rw [lookup_insertKV_ne wkey key bytes stub.State (hne key hk)]

/-- On a consistent ledger the bytes under an Owner key decode to the Owner
of that key. -/
theorem owner_record_consistent (stub : Stub) (hc : Consistent stub) (id key : String)
    (bytes : Bytes) (hk : ownerKey id = .ok key) (hl : stub.State.lookup key = some bytes) :
    jsonUnmarshalOwner bytes = .ok ⟨id⟩ := by
  rcases hc _ (mem_of_lookup key bytes stub.State hl) with
    ⟨goowner, h1, h2⟩ | ⟨gohouse, h1, _, _⟩
  · have hid : goowner.Id = id := ownerKey_inj _ _ _ h1 hk
    simp only [jsonMarshalOwner, Except.ok.injEq] at h2
    rw [← h2, ← hid]
    rfl
  · exact (ownerKey_ne_houseKey _ _ _ hk h1).elim

/-- On a consistent ledger the bytes under a House key decode to a House
with the Id of that key. -/
theorem house_record_consistent (stub : Stub) (hc : Consistent stub) (id key : String)
    (bytes : Bytes) (hk : houseKey id = .ok key) (hl : stub.State.lookup key = some bytes) :
    ∃ gohouse, jsonUnmarshalHouse bytes = .ok gohouse ∧ gohouse.Id = id := by
  rcases hc _ (mem_of_lookup key bytes stub.State hl) with
    ⟨goowner, h1, _⟩ | ⟨gohouse, h1, h2, _⟩
  · exact (ownerKey_ne_houseKey _ _ _ h1 hk).elim
  · refine ⟨gohouse, ?_, houseKey_inj _ _ _ h1 hk⟩
    simp only [jsonMarshalHouse, Except.ok.injEq] at h2
    rw [← h2]
    rfl

/-! ## The claims -/

/-- C1. On every stub reachable from the empty ledger through the registry
operations: if TransferHouse(houseId, newOwnerId) succeeds, then GetHouse(houseId)
returned a House before the call and returns one after it, the one after has
OwnerId = newOwnerId, and its Id, Address, Price and Timestamp are those of the
one before. -/
theorem transferHouse_sets_owner_only (stub : Stub) (hr : Reachable stub)
    (houseId newownerId : String)
    (h : (TransferHouse houseId newownerId stub).1 = .ok ()) :
    ∃ before after : House,
      (GetHouse houseId stub).1 = .ok before ∧
      (GetHouse houseId (TransferHouse houseId newownerId stub).2).1 = .ok after ∧
      after.OwnerId = newownerId ∧ after.Id = before.Id ∧ after.Address = before.Address ∧
      after.Price = before.Price ∧ after.Timestamp = before.Timestamp := by
  have hc := reachable_consistent stub hr
  rw [transferHouse_run] at h ⊢
  cases hg : (GetHouse houseId stub).1 with
  | error err => simp [hg] at h
  | ok before =>
    simp only [hg] at h ⊢
    have hid := (getHouse_consistent stub hc houseId before hg).1
    subst hid
    have hfull := updateHouse_then_getHouse _ stub h
    exact ⟨before, { before with OwnerId := newownerId }, rfl, hfull, rfl, rfl, rfl, rfl, rfl⟩

theorem transferHouse_sets_owner_only_witness :
    Reachable stubAliceBobHouse1 ∧
    (TransferHouse "1" "Bob" stubAliceBobHouse1).1 = .ok () ∧
    ∃ before after : House,
      (GetHouse "1" stubAliceBobHouse1).1 = .ok before ∧
      (GetHouse "1" (TransferHouse "1" "Bob" stubAliceBobHouse1).2).1 = .ok after ∧
      after.OwnerId = "Bob" ∧ after.Id = before.Id ∧ after.Address = before.Address ∧
      after.Price = before.Price ∧ after.Timestamp = before.Timestamp :=
  ⟨⟨[.addOwner alice, .addOwner bob, .addHouse house1], by decide⟩, by decide,
    transferHouse_sets_owner_only stubAliceBobHouse1
      ⟨[.addOwner alice, .addOwner bob, .addHouse house1], by decide⟩ "1" "Bob" (by decide)⟩

/-- C2. On every stub reachable from the empty ledger through the registry
operations, and for every houseId and newOwnerId: TransferHouse(houseId,
newOwnerId) fails with the NotFound message 'House with Id = <houseId> was not
found' when no House is stored under houseId, and it fails with the
ValidationFailed message 'Validation of the House failed' when a House is
stored under houseId but no Owner is stored under newOwnerId. Either way the
stub is left as it was. -/
theorem transferHouse_errors (stub : Stub) (hr : Reachable stub)
    (houseId newownerId : String) :
    ((CheckHouse houseId stub).1 = .ok false →
      TransferHouse houseId newownerId stub = (.error (mesHouseNotFound houseId), stub)) ∧
    ((CheckHouse houseId stub).1 = .ok true →
      (CheckOwner newownerId stub).1 = .ok false →
        TransferHouse houseId newownerId stub = (.error mesValidationFailed, stub)) := by
  refine ⟨(transferHouse_error_cases houseId newownerId stub).1, ?_⟩
  intro hc ho
  obtain ⟨key, bytes, hk, hl, hget⟩ := getHouse_of_checkHouse_true houseId stub hc
  obtain ⟨gohouse, hdec, hid⟩ :=
    house_record_consistent stub (reachable_consistent stub hr) houseId key bytes hk hl
  have hg : (GetHouse houseId stub).1 = .ok gohouse := by
    rw [hget]
    exact hdec
  exact (transferHouse_error_cases houseId newownerId stub).2 gohouse hg hid ho

theorem transferHouse_errors_witness :
    Reachable stubAliceHouse1 ∧
    ((CheckHouse "2" stubAliceHouse1).1 = .ok false ∧
      TransferHouse "2" "Alice" stubAliceHouse1
        = (.error (mesHouseNotFound "2"), stubAliceHouse1)) ∧
    ((CheckHouse "1" stubAliceHouse1).1 = .ok true ∧
      (CheckOwner "Bob" stubAliceHouse1).1 = .ok false ∧
      TransferHouse "1" "Bob" stubAliceHouse1 = (.error mesValidationFailed, stubAliceHouse1)) :=
  have hr : Reachable stubAliceHouse1 := ⟨[.addOwner alice, .addHouse house1], by decide⟩
  ⟨hr,
    ⟨by decide, (transferHouse_errors stubAliceHouse1 hr "2" "Alice").1 (by decide)⟩,
    by decide, by decide,
    (transferHouse_errors stubAliceHouse1 hr "1" "Bob").2 (by decide) (by decide)⟩

/-- C3. Atomicity on error: whenever AddOwner, AddHouse, UpdateHouse or
TransferHouse returns an error, on any stub and for any argument, the stub it
leaves behind is the stub it was given, so no key of the ledger is added,
removed or overwritten. -/
theorem error_leaves_ledger_unchanged (op : Op) (stub : Stub) (err : String)
    (h : (op.run stub).1 = .error err) : (op.run stub).2 = stub :=
  op_error_snd op stub err h

theorem error_leaves_ledger_unchanged_witness :
    ((Op.transferHouse "1" "Bob").run stubAliceHouse1).1 = .error mesValidationFailed ∧
    ((Op.transferHouse "1" "Bob").run stubAliceHouse1).2 = stubAliceHouse1 :=
  ⟨by decide,
    error_leaves_ledger_unchanged (.transferHouse "1" "Bob") stubAliceHouse1
      mesValidationFailed (by decide)⟩

/-- C4 fails when the House is already stored. On the ledger of Alice and her
house1, no Owner is stored under "Bob", yet AddHouse of a House with Id "1" and
OwnerId "Bob" fails with the AlreadyExists message, not with the
ValidationFailed message: the existence check comes first. -/
theorem addHouse_alreadyExists_counterexample :
    (CheckOwner "Bob" stubAliceHouse1).1 = .ok false ∧
    (AddHouse house1b stubAliceHouse1).1 = .error (mesHouseAlreadyExists "1") ∧
    (AddHouse house1b stubAliceHouse1).1 ≠ .error mesValidationFailed := by
  decide

/-- C4, amended. On every stub with no failing store call: AddHouse(h) fails
with the ValidationFailed message if and only if no House is stored under h.Id
and no Owner is stored under h.OwnerId. -/
theorem addHouse_validationFailed_iff (gohouse : House) (stub : Stub)
    (hf : stub.faults = []) :
    (AddHouse gohouse stub).1 = .error mesValidationFailed ↔
      (CheckHouse gohouse.Id stub).1 = .ok false ∧
      (CheckOwner gohouse.OwnerId stub).1 = .ok false := by
  constructor
  · intro h
    rw [addHouse_run] at h
    cases hk : houseKey gohouse.Id with
    | error err =>
      simp only [hk, Except.error.injEq] at h
      exact absurd (h ▸ createCompositeKey_single_error _ _ _ hk).symm
        errCompositeKeyAttribute_ne
    | ok key =>
      cases hc : (CheckHouse gohouse.Id stub).1 with
      | error err =>
        simp only [hk, hc, Except.error.injEq] at h
        exact absurd (h ▸ checkHouse_error _ stub hf _ hc).symm errCompositeKeyAttribute_ne
      | ok found =>
        cases found with
        | true =>
          simp only [hk, hc, Except.error.injEq] at h
          exact absurd h (mesHouseAlreadyExists_ne _)
        | false =>
          cases ho : (CheckOwner gohouse.OwnerId stub).1 with
          | error err =>
            simp only [hk, hc, ho, Except.error.injEq] at h
            exact absurd (h ▸ checkOwner_error _ stub hf _ ho).symm errCompositeKeyAttribute_ne
          | ok ok =>
            cases ok with
            | false => exact ⟨rfl, rfl⟩
            | true => simp [hk, hc, ho, jsonMarshalHouse, fault_none stub hf] at h
  · intro ⟨hc, ho⟩
    obtain ⟨key, hk, _, _⟩ := (checkHouse_ok_iff _ _ _).1 hc
    rw [addHouse_run, hk, hc, ho]

theorem addHouse_validationFailed_iff_witness :
    stubAliceHouse1.faults = [] ∧
    (AddHouse ⟨"2", "bucheon", "Bob", "2000", timestamp⟩ stubAliceHouse1).1
      = .error mesValidationFailed ∧
    ((AddHouse ⟨"2", "bucheon", "Bob", "2000", timestamp⟩ stubAliceHouse1).1
        = .error mesValidationFailed ↔
      (CheckHouse "2" stubAliceHouse1).1 = .ok false ∧
      (CheckOwner "Bob" stubAliceHouse1).1 = .ok false) :=
  ⟨by decide, by decide,
    addHouse_validationFailed_iff ⟨"2", "bucheon", "Bob", "2000", timestamp⟩ stubAliceHouse1
      (by decide)⟩

/-- C5. On every stub and for every Owner o: if AddOwner(o) succeeds, then on
the stub it leaves behind CheckOwner(o.Id) returns true, and a second
AddOwner(o) fails with the AlreadyExists message and leaves that stub, hence
the stored Owner record, as it is. -/
theorem addOwner_then_exists (goowner : Owner) (stub : Stub)
    (h : (AddOwner goowner stub).1 = .ok ()) :
    (CheckOwner goowner.Id (AddOwner goowner stub).2).1 = .ok true ∧
    (AddOwner goowner (AddOwner goowner stub).2).1
      = .error (mesOwnerAlreadyExists goowner.Id) ∧
    (AddOwner goowner (AddOwner goowner stub).2).2 = (AddOwner goowner stub).2 := by
  obtain ⟨key, jsonowner, hk, _, hc, hs⟩ := addOwner_ok goowner stub h
  obtain ⟨key1, hk1, hf, _⟩ := (checkOwner_ok_iff _ _ _).1 hc
  rw [hk] at hk1
  cases hk1
  have hcheck : (CheckOwner goowner.Id (AddOwner goowner stub).2).1 = .ok true := by
    rw [checkOwner_ok_iff]
    refine ⟨key, hk, ?_, ?_⟩
    · rw [hs]
      exact hf
    · rw [hs]
      simp only [lookup_insertKV_self]
      rfl
  refine ⟨hcheck, ?_, ?_⟩
  · rw [addOwner_run, hcheck]
  · rw [addOwner_run, hcheck]

theorem addOwner_then_exists_witness :
    (AddOwner alice Stub.empty).1 = .ok () ∧
    (CheckOwner alice.Id (AddOwner alice Stub.empty).2).1 = .ok true ∧
    (AddOwner alice (AddOwner alice Stub.empty).2).1
      = .error (mesOwnerAlreadyExists alice.Id) ∧
    (AddOwner alice (AddOwner alice Stub.empty).2).2 = (AddOwner alice Stub.empty).2 :=
  ⟨by decide, addOwner_then_exists alice Stub.empty (by decide)⟩

/-- C6. Referential integrity is an invariant: on every stub reachable from
the empty ledger by any sequence of AddOwner, AddHouse, UpdateHouse and
TransferHouse calls, successful or failed, every House that GetHouse returns
and every House that ListHouses returns has an OwnerId for which CheckOwner
returns true. -/
theorem referential_integrity (stub : Stub) (hr : Reachable stub) :
    (∀ houseId gohouse, (GetHouse houseId stub).1 = .ok gohouse →
      (CheckOwner gohouse.OwnerId stub).1 = .ok true) ∧
    (∀ gohouses, (ListHouses stub).1 = .ok gohouses →
      ∀ gohouse ∈ gohouses, (CheckOwner gohouse.OwnerId stub).1 = .ok true) :=
  ⟨fun houseId gohouse hg =>
      (getHouse_consistent stub (reachable_consistent stub hr) houseId gohouse hg).2,
    fun gohouses hl gohouse hm =>
      listHouses_consistent stub (reachable_consistent stub hr) gohouses hl gohouse hm⟩

theorem referential_integrity_witness :
    Reachable stubAliceBobHouse1 ∧
    (GetHouse "1" stubAliceBobHouse1).1 = .ok house1 ∧
    (ListHouses stubAliceBobHouse1).1 = .ok [house1] ∧
    (CheckOwner house1.OwnerId stubAliceBobHouse1).1 = .ok true :=
  have hr : Reachable stubAliceBobHouse1 :=
    ⟨[.addOwner alice, .addOwner bob, .addHouse house1], by decide⟩
  ⟨hr, by decide, by decide,
    (referential_integrity stubAliceBobHouse1 hr).1 "1" house1 (by decide)⟩

/-- C7. On every stub and for every ownerId: if "admin" occurs in ownerId,
ListOwnerIdHouses(ownerId) returns what ListHouses() returns; otherwise it
returns the Houses of ListHouses() whose OwnerId equals ownerId, in the same
order, and the error of ListHouses() when that fails. -/
theorem listOwnerIdHouses_spec (ownerId : String) (stub : Stub) :
    ("admin".data <:+: ownerId.data →
      ListOwnerIdHouses ownerId stub = ListHouses stub) ∧
    (¬ "admin".data <:+: ownerId.data →
      ListOwnerIdHouses ownerId stub =
        ((ListHouses stub).1.map
          (fun gohouses => gohouses.filter (fun gohouse => gohouse.OwnerId = ownerId)),
         (ListHouses stub).2)) := by
  constructor
  · intro h
    have h1 := (stringsIndex_admin ownerId).2 h
    simp only [ListOwnerIdHouses, ListHouses, bind_run]
    cases GetStateByPartialCompositeKey prefixHouse [] stub with
    | mk res stub1 =>
      cases res with
      | error err => rfl
      | ok iter => simp only [CC.lift, listOwnerIdHouses_loop_admin ownerId h1]
  · intro h
    have h1 : ¬ stringsIndex ownerId "admin" ≠ -1 := fun hn => h ((stringsIndex_admin ownerId).1 hn)
    simp only [ListOwnerIdHouses, ListHouses, bind_run]
    cases GetStateByPartialCompositeKey prefixHouse [] stub with
    | mk res stub1 =>
      cases res with
      | error err => rfl
      | ok iter =>
        simp only [CC.lift]
        rw [← listOwnerIdHouses_loop_filter ownerId h1 iter []]
        rfl

theorem listOwnerIdHouses_spec_witness :
    ("admin".data <:+: "xadmin-y".data ∧
      ListOwnerIdHouses "xadmin-y" stubAliceBobHouse1 = ListHouses stubAliceBobHouse1 ∧
      (ListHouses stubAliceBobHouse1).1 = .ok [house1]) ∧
    (¬ "admin".data <:+: "Bob".data ∧
      ListOwnerIdHouses "Bob" stubAliceBobHouse1 = (.ok [], stubAliceBobHouse1)) :=
  ⟨⟨by decide, (listOwnerIdHouses_spec "xadmin-y" stubAliceBobHouse1).1 (by decide),
      by decide⟩,
    by decide,
    ((listOwnerIdHouses_spec "Bob" stubAliceBobHouse1).2 (by decide)).trans (by decide)⟩

/-- C8 fails for ListOwnerIdHouses, the one case of `Invoke` that reads
`args[0]` without calling `checkLen`: with no argument the Go runtime panics
on the index, on every stub, and no failure response is returned. -/
theorem invoke_listOwnerIdHouses_no_args (stub : Stub) :
    Invoke "ListOwnerIdHouses" [] stub
      = (.panicked "runtime error: index out of range [0] with length 0", stub) := by
  rfl

/-- The five cases of `Invoke` that call `checkLen` do return the failure
"not enough number of arguments" when given too few arguments, and leave the
stub as it was. -/
theorem invoke_too_few_args (function : String) (args : List Bytes) (stub : Stub) :
    (function ∈ ["AddOwner", "AddHouse", "GetHouse", "UpdateHouse"] → args.length < 1 →
      Invoke function args stub = (.returned (.Error
        ("not enough number of arguments: " ++ toString args.length ++ " given, "
          ++ toString 1 ++ " expected")), stub)) ∧
    (function = "TransferHouse" → args.length < 2 →
      Invoke function args stub = (.returned (.Error
        ("not enough number of arguments: " ++ toString args.length ++ " given, "
          ++ toString 2 ++ " expected")), stub)) := by
  constructor
  · intro hfn hlen
    simp only [List.mem_cons, List.mem_singleton, List.not_mem_nil, or_false] at hfn
    rcases hfn with h | h | h | h <;> subst h <;>
      simp [Invoke, Invoke.addOwner, Invoke.addHouse, Invoke.updateHouse, Invoke.getHouse, checkLen, hlen]
  · intro hfn hlen
    subst hfn
    simp [Invoke, Invoke.transferHouse, checkLen, hlen]

/-- C9. The result of UpdateHouse(h) is determined by the two existence
probes, on every stub: when CheckHouse(h.Id) is false it fails with the message
for a missing House, whatever CheckOwner says; when CheckHouse(h.Id) is true and
CheckOwner(h.OwnerId) is false it fails with the ValidationFailed message and
GetHouse(h.Id) returns afterwards what it returned before; when both are true
and the write does not fail, it succeeds. -/
theorem updateHouse_by_probes (gohouse : House) (stub : Stub) :
    ((CheckHouse gohouse.Id stub).1 = .ok false →
      UpdateHouse gohouse stub = (.error (mesHouseDoesNotExist gohouse.Id), stub)) ∧
    ((CheckHouse gohouse.Id stub).1 = .ok true →
      (CheckOwner gohouse.OwnerId stub).1 = .ok false →
        UpdateHouse gohouse stub = (.error mesValidationFailed, stub) ∧
        GetHouse gohouse.Id (UpdateHouse gohouse stub).2 = GetHouse gohouse.Id stub) ∧
    ((CheckHouse gohouse.Id stub).1 = .ok true →
      (CheckOwner gohouse.OwnerId stub).1 = .ok true →
      (∀ key, houseKey gohouse.Id = .ok key → stub.fault (.putState key) = none) →
        (UpdateHouse gohouse stub).1 = .ok ()) := by
  refine ⟨?_, ?_, ?_⟩
  · intro h
    rw [updateHouse_run, h]
  · intro h1 h2
    have : UpdateHouse gohouse stub = (.error mesValidationFailed, stub) := by
      rw [updateHouse_run, h1, h2]
    exact ⟨this, by rw [this]⟩
  · intro h1 h2 h3
    obtain ⟨key, hk, _, _⟩ := (checkHouse_ok_iff _ _ _).1 h1
    rw [updateHouse_run, h1, h2]
    simp [hk, h3 key hk, jsonMarshalHouse]

theorem updateHouse_by_probes_witness :
    ((CheckHouse house1b.Id Stub.empty).1 = .ok false ∧
      UpdateHouse house1b Stub.empty = (.error (mesHouseDoesNotExist "1"), Stub.empty)) ∧
    ((CheckHouse house1b.Id stubAliceHouse1).1 = .ok true ∧
      (CheckOwner house1b.OwnerId stubAliceHouse1).1 = .ok false ∧
      UpdateHouse house1b stubAliceHouse1 = (.error mesValidationFailed, stubAliceHouse1) ∧
      GetHouse "1" (UpdateHouse house1b stubAliceHouse1).2 = (.ok house1, stubAliceHouse1)) ∧
    ((CheckHouse house1b.Id stubAliceBobHouse1).1 = .ok true ∧
      (CheckOwner house1b.OwnerId stubAliceBobHouse1).1 = .ok true ∧
      (UpdateHouse house1b stubAliceBobHouse1).1 = .ok ()) :=
  ⟨⟨by decide, (updateHouse_by_probes house1b Stub.empty).1 (by decide)⟩,
    ⟨by decide, by decide,
      ((updateHouse_by_probes house1b stubAliceHouse1).2.1 (by decide) (by decide)).1,
      by decide⟩,
    by decide, by decide,
    (updateHouse_by_probes house1b stubAliceBobHouse1).2.2 (by decide) (by decide)
      (fun _ _ => rfl)⟩

/-- C10. UpdateHouse is a full replace: on every stub and for every House h,
if UpdateHouse(h) succeeds then GetHouse(h.Id) afterwards returns h itself,
equal in all five fields, whatever was stored before. -/
theorem updateHouse_full_replace (gohouse : House) (stub : Stub)
    (h : (UpdateHouse gohouse stub).1 = .ok ()) :
    (GetHouse gohouse.Id (UpdateHouse gohouse stub).2).1 = .ok gohouse :=
  updateHouse_then_getHouse gohouse stub h

theorem updateHouse_full_replace_witness :
    (UpdateHouse house1b stubAliceBobHouse1).1 = .ok () ∧
    (GetHouse house1b.Id (UpdateHouse house1b stubAliceBobHouse1).2).1 = .ok house1b :=
  ⟨by decide, updateHouse_full_replace house1b stubAliceBobHouse1 (by decide)⟩

/-- C11 fails for UpdateHouse. On the ledger of Alice and her house1, the
successful UpdateHouse of `houseRebuilt` changes the Address, the Price and the
Timestamp of the House stored under "1", not its OwnerId only. -/
theorem updateHouse_changes_fields_counterexample :
    (GetHouse "1" stubAliceHouse1).1 = .ok house1 ∧
    (UpdateHouse houseRebuilt stubAliceHouse1).1 = .ok () ∧
    (GetHouse "1" (UpdateHouse houseRebuilt stubAliceHouse1).2).1 = .ok houseRebuilt ∧
    houseRebuilt.Address ≠ house1.Address ∧ houseRebuilt.Price ≠ house1.Price ∧
    houseRebuilt.Timestamp ≠ house1.Timestamp := by
  decide

/-- C11, amended. On every stub: a successful TransferHouse(houseId, newOwnerId)
leaves under houseId a House with the Id, Address, Price and Timestamp that
GetHouse(houseId) returned before the call; a successful UpdateHouse(h) stores h
whole, so GetHouse(h.Id) afterwards returns h with its own Address, Price and
Timestamp. -/
theorem house_mutation (stub : Stub) :
    (∀ houseId newownerId, (TransferHouse houseId newownerId stub).1 = .ok () →
      ∃ before after : House,
        (GetHouse houseId stub).1 = .ok before ∧
        (GetHouse houseId (TransferHouse houseId newownerId stub).2).1 = .ok after ∧
        after.Id = before.Id ∧ after.Address = before.Address ∧
        after.Price = before.Price ∧ after.Timestamp = before.Timestamp) ∧
    (∀ gohouse, (UpdateHouse gohouse stub).1 = .ok () →
      (GetHouse gohouse.Id (UpdateHouse gohouse stub).2).1 = .ok gohouse) :=
  ⟨fun houseId newownerId h => transferHouse_then_getHouse houseId newownerId stub h,
    fun gohouse h => updateHouse_then_getHouse gohouse stub h⟩

theorem house_mutation_witness :
    (TransferHouse "1" "Bob" stubAliceBobHouse1).1 = .ok () ∧
    (GetHouse "1" stubAliceBobHouse1).1 = .ok house1 ∧
    (GetHouse "1" (TransferHouse "1" "Bob" stubAliceBobHouse1).2).1 = .ok house1b ∧
    (∃ before after : House,
      (GetHouse "1" stubAliceBobHouse1).1 = .ok before ∧
      (GetHouse "1" (TransferHouse "1" "Bob" stubAliceBobHouse1).2).1 = .ok after ∧
      after.Id = before.Id ∧ after.Address = before.Address ∧
      after.Price = before.Price ∧ after.Timestamp = before.Timestamp) :=
  ⟨by decide, by decide, by decide,
    (house_mutation stubAliceBobHouse1).1 "1" "Bob" (by decide)⟩

/-- C12 fails: AddOwner does not look at the Id it is given. On the empty
ledger AddOwner of the Owner with Id "" succeeds, and on the stub it leaves
behind, reached by that one call, CheckOwner("") is true and ListOwners
returns that Owner. -/
theorem addOwner_empty_id_counterexample :
    (AddOwner nobody Stub.empty).1 = .ok () ∧
    (AddOwner nobody Stub.empty).2 = runOps [.addOwner nobody] Stub.empty ∧
    (CheckOwner "" (AddOwner nobody Stub.empty).2).1 = .ok true ∧
    (ListOwners (AddOwner nobody Stub.empty).2).1 = .ok [nobody] := by
  decide

/-- C12, amended. On every stub reachable from the empty ledger, every Owner
that ListOwners returns has an Id the key builder accepts, one with no U+0000
and no U+10FFFF, which may be empty; and AddOwner stores the Owner with Id ""
whenever CheckOwner("") is false and the write does not fail. -/
theorem owner_ids (stub : Stub) (hr : Reachable stub) :
    (∀ goowners, (ListOwners stub).1 = .ok goowners → ∀ goowner ∈ goowners,
      validateCompositeKeyAttribute goowner.Id = .ok () ∧
      ∀ c ∈ goowner.Id.data, c ≠ minUnicodeRuneValue ∧ c ≠ maxUnicodeRuneValue) ∧
    ((CheckOwner nobody.Id stub).1 = .ok false →
      (∀ key, ownerKey nobody.Id = .ok key → stub.fault (.putState key) = none) →
        (AddOwner nobody stub).1 = .ok () ∧
        (CheckOwner nobody.Id (AddOwner nobody stub).2).1 = .ok true) := by
  refine ⟨?_, fun hc hp => addOwner_of_checkOwner_false nobody stub hc hp⟩
  intro goowners hl goowner hm
  obtain ⟨kv, _, hk, _⟩ := ((listOwners_reachable stub hr goowners hl).1 goowner).1 hm
  have hv := createCompositeKey_single_valid _ _ _ hk
  exact ⟨hv, validate_ok _ hv⟩

theorem owner_ids_witness :
    Reachable stubAliceBobHouse1 ∧
    (ListOwners stubAliceBobHouse1).1 = .ok [alice, bob] ∧
    (CheckOwner nobody.Id stubAliceBobHouse1).1 = .ok false ∧
    (AddOwner nobody stubAliceBobHouse1).1 = .ok () ∧
    (CheckOwner nobody.Id (AddOwner nobody stubAliceBobHouse1).2).1 = .ok true :=
  have hr : Reachable stubAliceBobHouse1 :=
    ⟨[.addOwner alice, .addOwner bob, .addHouse house1], by decide⟩
  ⟨hr, by decide, by decide,
    (owner_ids stubAliceBobHouse1 hr).2 (by decide) (fun _ _ => rfl)⟩

/-- C13. The result of AddHouse(h) is determined by two checks in a fixed
order, on every stub: when CheckHouse(h.Id) is true it fails with the
AlreadyExists message, whatever CheckOwner says; when CheckHouse(h.Id) is false
and CheckOwner(h.OwnerId) is false it fails with the ValidationFailed message;
when CheckHouse(h.Id) is false, CheckOwner(h.OwnerId) is true and the write does
not fail, it succeeds and GetHouse(h.Id) afterwards returns h. -/
theorem addHouse_by_probes (gohouse : House) (stub : Stub) :
    ((CheckHouse gohouse.Id stub).1 = .ok true →
      AddHouse gohouse stub = (.error (mesHouseAlreadyExists gohouse.Id), stub)) ∧
    ((CheckHouse gohouse.Id stub).1 = .ok false →
      (CheckOwner gohouse.OwnerId stub).1 = .ok false →
        AddHouse gohouse stub = (.error mesValidationFailed, stub)) ∧
    ((CheckHouse gohouse.Id stub).1 = .ok false →
      (CheckOwner gohouse.OwnerId stub).1 = .ok true →
      (∀ key, houseKey gohouse.Id = .ok key → stub.fault (.putState key) = none) →
        (AddHouse gohouse stub).1 = .ok () ∧
        (GetHouse gohouse.Id (AddHouse gohouse stub).2).1 = .ok gohouse) := by
  refine ⟨?_, ?_, ?_⟩
  · intro h
    obtain ⟨key, hk, _, _⟩ := (checkHouse_ok_iff _ _ _).1 h
    rw [addHouse_run, hk, h]
  · intro h1 h2
    obtain ⟨key, hk, _, _⟩ := (checkHouse_ok_iff _ _ _).1 h1
    rw [addHouse_run, hk, h1, h2]
  · intro h1 h2 h3
    obtain ⟨key, hk, _, _⟩ := (checkHouse_ok_iff _ _ _).1 h1
    have hok : (AddHouse gohouse stub).1 = .ok () := by
      rw [addHouse_run, hk, h1, h2]
      simp [h3 key hk, jsonMarshalHouse]
    exact ⟨hok, addHouse_then_getHouse gohouse stub hok⟩

theorem addHouse_by_probes_witness :
    ((CheckHouse house1b.Id stubAliceHouse1).1 = .ok true ∧
      (CheckOwner house1b.OwnerId stubAliceHouse1).1 = .ok false ∧
      AddHouse house1b stubAliceHouse1
        = (.error (mesHouseAlreadyExists "1"), stubAliceHouse1)) ∧
    ((CheckHouse house1.Id Stub.empty).1 = .ok false ∧
      (CheckOwner house1.OwnerId Stub.empty).1 = .ok false ∧
      AddHouse house1 Stub.empty = (.error mesValidationFailed, Stub.empty)) ∧
    ((CheckHouse house2.Id stubAliceHouse1).1 = .ok false ∧
      (CheckOwner house2.OwnerId stubAliceHouse1).1 = .ok true ∧
      (AddHouse house2 stubAliceHouse1).1 = .ok () ∧
      (GetHouse house2.Id (AddHouse house2 stubAliceHouse1).2).1 = .ok house2) :=
  ⟨⟨by decide, by decide, (addHouse_by_probes house1b stubAliceHouse1).1 (by decide)⟩,
    ⟨by decide, by decide,
      (addHouse_by_probes house1 Stub.empty).2.1 (by decide) (by decide)⟩,
    by decide, by decide,
    (addHouse_by_probes house2 stubAliceHouse1).2.2 (by decide) (by decide)
      (fun _ _ => rfl)⟩

/-- C14. With the Owner scan not failing: on the empty ledger ListOwners
returns the empty sequence without error, and on the stub reached from the
empty ledger by any sequence of registry operations it returns a sequence
without repetition whose members are exactly the Owners for which AddOwner
succeeded along the way, each one stored under its Owner key, which is the
House key of no id. -/
theorem listOwners_exact (faults : List (StoreCall × String)) (ops : List Op)
    (hf : Stub.fault ⟨[], faults⟩ (.getStateByPartialCompositeKey prefixOwner) = none) :
    (ListOwners ⟨[], faults⟩).1 = .ok [] ∧
    ∃ goowners, (ListOwners (runOps ops ⟨[], faults⟩)).1 = .ok goowners ∧
      goowners.Nodup ∧
      (∀ goowner, goowner ∈ goowners ↔ goowner ∈ addedOwners ops ⟨[], faults⟩) ∧
      (∀ goowner ∈ goowners, ∃ kv ∈ (runOps ops ⟨[], faults⟩).State,
        ownerKey goowner.Id = .ok kv.1 ∧ jsonMarshalOwner goowner = .ok kv.2 ∧
        ∀ id, houseKey id ≠ .ok kv.1) := by
  constructor
  · rw [listOwners_run, getStateByPartialCompositeKey_run, ownerStartKey]
    simp only [hf]
    rfl
  · have hr := reachable_runOps ops faults
    have hf1 : (runOps ops ⟨[], faults⟩).fault (.getStateByPartialCompositeKey prefixOwner)
        = none := by
      unfold Stub.fault at hf ⊢
      rw [runOps_faults]
      exact hf
    obtain ⟨goowners, hl, _, _⟩ := listOwners_spec _ (reachable_consistent _ hr)
      (reachable_ascending _ hr) hf1
    obtain ⟨hmem, _, hids⟩ := listOwners_reachable _ hr goowners hl
    refine ⟨goowners, hl, ?_, ?_, ?_⟩
    · exact hids.imp (fun hab he => by subst he; exact lt_irrefl _ hab)
    · intro goowner
      rw [hmem, owner_entries_runOps]
      simp
    · intro goowner hm
      obtain ⟨kv, hkv, hk, hj⟩ := (hmem goowner).1 hm
      exact ⟨kv, hkv, hk, hj, fun id hh => ownerKey_ne_houseKey _ _ _ hk hh⟩

theorem listOwners_exact_witness :
    (ListOwners Stub.empty).1 = .ok [] ∧
    (ListOwners stubReordered).1 = .ok [alice, bob] ∧
    addedOwners [.addOwner bob, .addOwner alice, .addHouse house2, .addHouse house1] Stub.empty
      = [bob, alice] ∧
    ∃ goowners, (ListOwners stubReordered).1 = .ok goowners ∧
      goowners.Nodup ∧
      (∀ goowner, goowner ∈ goowners ↔ goowner ∈ addedOwners
        [.addOwner bob, .addOwner alice, .addHouse house2, .addHouse house1] ⟨[], []⟩) ∧
      (∀ goowner ∈ goowners, ∃ kv ∈ stubReordered.State,
        ownerKey goowner.Id = .ok kv.1 ∧ jsonMarshalOwner goowner = .ok kv.2 ∧
        ∀ id, houseKey id ≠ .ok kv.1) :=
  ⟨by decide, by decide, by decide,
    (listOwners_exact []
      [.addOwner bob, .addOwner alice, .addHouse house2, .addHouse house1] rfl).2⟩

/-- C15. On every stub reachable from the empty ledger, what ListOwners and
ListHouses return is strictly ascending in the order of the composite keys,
rune by rune, which is the order of the Ids; hence two reachable stubs whose
lists have the same members return identical lists, in whatever order the
entities were added. Either query returns when its scan does not fail. -/
theorem lists_in_key_order (stub : Stub) (hr : Reachable stub) :
    (∀ goowners, (ListOwners stub).1 = .ok goowners →
      goowners.Pairwise (fun a b => ∃ ka kb, ownerKey a.Id = .ok ka ∧ ownerKey b.Id = .ok kb ∧
        ka.data < kb.data) ∧
      goowners.Pairwise (fun a b => a.Id.data < b.Id.data)) ∧
    (∀ gohouses, (ListHouses stub).1 = .ok gohouses →
      gohouses.Pairwise (fun a b => ∃ ka kb, houseKey a.Id = .ok ka ∧ houseKey b.Id = .ok kb ∧
        ka.data < kb.data) ∧
      gohouses.Pairwise (fun a b => a.Id.data < b.Id.data)) ∧
    (∀ other, Reachable other → ∀ l1 l2,
      (ListOwners stub).1 = .ok l1 → (ListOwners other).1 = .ok l2 →
      (∀ goowner, goowner ∈ l1 ↔ goowner ∈ l2) → l1 = l2) ∧
    (∀ other, Reachable other → ∀ l1 l2,
      (ListHouses stub).1 = .ok l1 → (ListHouses other).1 = .ok l2 →
      (∀ gohouse, gohouse ∈ l1 ↔ gohouse ∈ l2) → l1 = l2) ∧
    (stub.fault (.getStateByPartialCompositeKey prefixOwner) = none →
      ∃ goowners, (ListOwners stub).1 = .ok goowners) ∧
    (stub.fault (.getStateByPartialCompositeKey prefixHouse) = none →
      ∃ gohouses, (ListHouses stub).1 = .ok gohouses) := by
  refine ⟨fun l h => (listOwners_reachable stub hr l h).2,
    fun l h => (listHouses_reachable stub hr l h).2, ?_, ?_, ?_, ?_⟩
  · intro other ho l1 l2 h1 h2 hmem
    exact owners_eq_of_same_members l1 l2 (listOwners_reachable stub hr l1 h1).2.2
      (listOwners_reachable other ho l2 h2).2.2 hmem
  · intro other ho l1 l2 h1 h2 hmem
    exact houses_eq_of_same_members l1 l2 (listHouses_reachable stub hr l1 h1).2.2
      (listHouses_reachable other ho l2 h2).2.2 hmem
  · intro hf
    obtain ⟨l, hl, _⟩ := listOwners_spec stub (reachable_consistent stub hr)
      (reachable_ascending stub hr) hf
    exact ⟨l, hl⟩
  · intro hf
    obtain ⟨l, hl, _⟩ := listHouses_spec stub (reachable_consistent stub hr)
      (reachable_ascending stub hr) hf
    exact ⟨l, hl⟩

theorem lists_in_key_order_witness :
    Reachable stubReordered ∧ Reachable stubInOrder ∧
    (ListOwners stubReordered).1 = .ok [alice, bob] ∧
    (ListOwners stubInOrder).1 = .ok [alice, bob] ∧
    (ListHouses stubReordered).1 = .ok [house1, house2] ∧
    (ListHouses stubInOrder).1 = .ok [house1, house2] ∧
    (∀ l1 l2, (ListHouses stubReordered).1 = .ok l1 → (ListHouses stubInOrder).1 = .ok l2 →
      (∀ gohouse, gohouse ∈ l1 ↔ gohouse ∈ l2) → l1 = l2) :=
  have h1 : Reachable stubReordered :=
    ⟨[.addOwner bob, .addOwner alice, .addHouse house2, .addHouse house1], by decide⟩
  have h2 : Reachable stubInOrder :=
    ⟨[.addOwner alice, .addOwner bob, .addHouse house1, .addHouse house2], by decide⟩
  ⟨h1, h2, by decide, by decide, by decide, by decide,
    (lists_in_key_order stubReordered h1).2.2.2.1 stubInOrder h2⟩

/-- C16. With no store call failing, and the decoder not answering with the
NotFound text of its own accord: GetHouse(id) fails with the NotFound message
if and only if CheckHouse(id) is false; and when CheckHouse(id) is true,
GetHouse(id) returns what decoding the bytes stored under the House key of id
gives, the decoded House when they decode. -/
theorem getHouse_notFound_iff (id : String) (stub : Stub) (hf : stub.faults = [])
    (hdec : ∀ key bytes, houseKey id = .ok key → stub.State.lookup key = some bytes →
      jsonUnmarshalHouse bytes ≠ .error (mesHouseNotFound id)) :
    ((GetHouse id stub).1 = .error (mesHouseNotFound id) ↔
      (CheckHouse id stub).1 = .ok false) ∧
    ((CheckHouse id stub).1 = .ok true →
      ∃ key bytes, houseKey id = .ok key ∧ stub.State.lookup key = some bytes ∧
        (GetHouse id stub).1 = jsonUnmarshalHouse bytes) := by
  constructor
  · constructor
    · intro hg
      rcases checkHouse_cases id stub hf with h | h | ⟨_, h⟩
      · obtain ⟨key, bytes, hk, hl, hget⟩ := getHouse_of_checkHouse_true id stub h
        rw [hget] at hg
        exact absurd hg (hdec key bytes hk hl)
      · exact h
      · rw [h] at hg
        simp only [Except.error.injEq] at hg
        exact absurd hg (errCompositeKeyAttribute_ne_notFound id)
    · intro h
      rw [getHouse_of_checkHouse_false id stub h]
  · intro h
    obtain ⟨key, bytes, hk, hl, hget⟩ := getHouse_of_checkHouse_true id stub h
    exact ⟨key, bytes, hk, hl, by rw [hget]⟩

theorem getHouse_notFound_iff_witness :
    stubAliceHouse1.faults = [] ∧
    (GetHouse "1" stubAliceHouse1).1 = .ok house1 ∧
    ((GetHouse "1" stubAliceHouse1).1 = .error (mesHouseNotFound "1") ↔
      (CheckHouse "1" stubAliceHouse1).1 = .ok false) ∧
    ((CheckHouse "1" stubAliceHouse1).1 = .ok true →
      ∃ key bytes, houseKey "1" = .ok key ∧ stubAliceHouse1.State.lookup key = some bytes ∧
        (GetHouse "1" stubAliceHouse1).1 = jsonUnmarshalHouse bytes) :=
  ⟨by decide, by decide,
    getHouse_notFound_iff "1" stubAliceHouse1 (by decide)
      (fun key bytes hk hl => by
        have h : (CheckHouse "1" stubAliceHouse1).1 = .ok true := by decide
        obtain ⟨key1, bytes1, hk1, hl1, hget⟩ := getHouse_of_checkHouse_true _ _ h
        rw [hk] at hk1
        cases hk1
        rw [hl] at hl1
        cases hl1
        have hg : (GetHouse "1" stubAliceHouse1).1 = .ok house1 := by decide
        rw [hget] at hg
        have hg1 : jsonUnmarshalHouse bytes = .ok house1 := hg
        rw [hg1]
        exact fun hne => by cases hne)⟩

/-- C17. The queries are free of side effects: on every stub and for every
argument, CheckOwner, CheckHouse, ValidateHouse, GetHouse, ListOwners,
ListHouses and ListOwnerIdHouses leave the stub they were given, whether they
succeed or fail; and ValidateHouse(h) returns true exactly when
CheckOwner(h.OwnerId) does. -/
theorem queries_leave_stub (stub : Stub) :
    (∀ id, (CheckOwner id stub).2 = stub) ∧
    (∀ id, (CheckHouse id stub).2 = stub) ∧
    (∀ gohouse, (ValidateHouse gohouse stub).2 = stub) ∧
    (∀ id, (GetHouse id stub).2 = stub) ∧
    (ListOwners stub).2 = stub ∧
    (ListHouses stub).2 = stub ∧
    (∀ ownerId, (ListOwnerIdHouses ownerId stub).2 = stub) ∧
    (∀ gohouse, (ValidateHouse gohouse stub).1 = .ok true ↔
      (CheckOwner gohouse.OwnerId stub).1 = .ok true) := by
  refine ⟨fun id => checkOwner_snd id stub, fun id => checkHouse_snd id stub,
    fun gohouse => validateHouse_snd gohouse stub, fun id => getHouse_snd id stub, ?_, ?_, ?_, ?_⟩
  · rw [listOwners_run]
  · rw [listHouses_run]
  · intro ownerId
    rw [listOwnerIdHouses_run]
  · intro gohouse
    rw [validateHouse_run]

/-- C18. Nothing is deleted and no Owner is updated: on every stub, for every
registry operation, write or query, and every id, if CheckOwner(id) is true
before the operation it is true afterwards and the bytes stored under the Owner
key of id are the same; and if CheckHouse(id) is true before, it is true
afterwards. -/
theorem nothing_deleted (op : Op) (query : Query) (stub : Stub) (id : String) :
    ((CheckOwner id stub).1 = .ok true →
      (CheckOwner id (op.run stub).2).1 = .ok true ∧
      (CheckOwner id (query.after stub)).1 = .ok true ∧
      ∀ key, ownerKey id = .ok key →
        (op.run stub).2.State.lookup key = stub.State.lookup key ∧
        (query.after stub).State.lookup key = stub.State.lookup key) ∧
    ((CheckHouse id stub).1 = .ok true →
      (CheckHouse id (op.run stub).2).1 = .ok true ∧
      (CheckHouse id (query.after stub)).1 = .ok true) := by
  rw [query_after]
  refine ⟨fun h => ⟨op_keeps_checkOwner op stub id h, h, fun key hk => ⟨?_, rfl⟩⟩,
    fun h => ⟨op_keeps_checkHouse op stub id h, h⟩⟩
  obtain ⟨key1, hk1, _, hl⟩ := (checkOwner_ok_iff _ _ _).1 h
  rw [hk] at hk1
  cases hk1
  exact op_keeps_owner_record op stub id key hk hl

theorem nothing_deleted_witness :
    (CheckOwner "Alice" stubAliceBobHouse1).1 = .ok true ∧
    (UpdateHouse house1b stubAliceBobHouse1).1 = .ok () ∧
    (CheckOwner "Alice" (UpdateHouse house1b stubAliceBobHouse1).2).1 = .ok true ∧
    (CheckHouse "1" stubAliceBobHouse1).1 = .ok true ∧
    (CheckHouse "1" (UpdateHouse house1b stubAliceBobHouse1).2).1 = .ok true :=
  ⟨by decide, by decide,
    ((nothing_deleted (.updateHouse house1b) .listOwners stubAliceBobHouse1 "Alice").1
      (by decide)).1,
    by decide,
    ((nothing_deleted (.updateHouse house1b) .listOwners stubAliceBobHouse1 "1").2
      (by decide)).1⟩

/-- C19. The composite keys are free of collisions: for ids whose key the
builder returns, two ids with the same Owner key are equal, two ids with the
same House key are equal, no Owner key is a House key, no Owner key starts
with the partial key of the House scan, and no House key starts with the
partial key of the Owner scan. -/
theorem composite_keys_collision_free :
    (∀ a b key, ownerKey a = .ok key → ownerKey b = .ok key → a = b) ∧
    (∀ a b key, houseKey a = .ok key → houseKey b = .ok key → a = b) ∧
    (∀ a b ka kb, ownerKey a = .ok ka → houseKey b = .ok kb → ka ≠ kb) ∧
    (∀ a ka scan, ownerKey a = .ok ka → createCompositeKey prefixHouse [] = .ok scan →
      ¬ scan.data <+: ka.data) ∧
    (∀ b kb scan, houseKey b = .ok kb → createCompositeKey prefixOwner [] = .ok scan →
      ¬ scan.data <+: kb.data) := by
  refine ⟨ownerKey_inj, houseKey_inj, ?_, ?_, ?_⟩
  · rintro a b ka kb ha hb rfl
    exact ownerKey_ne_houseKey a b ka ha hb
  · intro a ka scan ha hs
    rw [houseStartKey] at hs
    cases hs
    exact ownerKey_not_house_scan a ka ha
  · intro b kb scan hb hs
    rw [ownerStartKey] at hs
    cases hs
    exact houseKey_not_owner_scan b kb hb

theorem composite_keys_collision_free_witness :
    (∃ ka, ownerKey "Alice" = .ok ka) ∧ (∃ kb, houseKey "Alice" = .ok kb) ∧
    (∀ kb, houseKey "Alice" = .ok kb → ownerKey "Alice" ≠ .ok kb) :=
  ⟨⟨_, rfl⟩, ⟨_, rfl⟩,
    fun kb hb ha => composite_keys_collision_free.2.2.1 "Alice" "Alice" kb kb ha hb rfl⟩

/-- C20. For every function name other than the eight that `Invoke`
recognizes, and every argument list, on every stub: `Invoke` returns the
failure whose message is "Unknown method: " followed by the name, and leaves
the stub as it was. -/
theorem invoke_unknown_method (function : String) (args : List Bytes) (stub : Stub)
    (h : function ∉ ["AddOwner", "ListOwners", "AddHouse", "ListHouses", "ListOwnerIdHouses",
      "GetHouse", "UpdateHouse", "TransferHouse"]) :
    Invoke function args stub = (.returned (.Error ("Unknown method: " ++ function)), stub) := by
  simp only [List.mem_cons, List.mem_singleton, List.not_mem_nil, or_false, not_or] at h
  obtain ⟨h1, h2, h3, h4, h5, h6, h7, h8⟩ := h
  simp only [Invoke, h1, h2, h3, h4, h5, h6, h7, h8, if_false]

theorem invoke_unknown_method_witness :
    Invoke "BadMethod" [] Stub.empty
      = (.returned (.Error "Unknown method: BadMethod"), Stub.empty) :=
  invoke_unknown_method "BadMethod" [] Stub.empty (by decide)

/-- C21. Key/record consistency is an invariant: on every stub reachable
from the empty ledger, the bytes stored under the House key of id decode to a
House whose Id is id, so GetHouse(id) returns a House with that Id; the bytes
stored under the Owner key of id decode to the Owner whose Id is id; and the
Ids of the Houses that ListHouses returns are pairwise different. -/
theorem key_record_consistency (stub : Stub) (hr : Reachable stub) :
    (∀ id key bytes, houseKey id = .ok key → stub.State.lookup key = some bytes →
      ∃ gohouse, jsonUnmarshalHouse bytes = .ok gohouse ∧ gohouse.Id = id) ∧
    (∀ id gohouse, (GetHouse id stub).1 = .ok gohouse → gohouse.Id = id) ∧
    (∀ id key bytes, ownerKey id = .ok key → stub.State.lookup key = some bytes →
      ∃ goowner, jsonUnmarshalOwner bytes = .ok goowner ∧ goowner.Id = id) ∧
    (∀ gohouses, (ListHouses stub).1 = .ok gohouses →
      (gohouses.map (fun gohouse => gohouse.Id)).Nodup) := by
  have hc := reachable_consistent stub hr
  refine ⟨fun id key bytes hk hl => house_record_consistent stub hc id key bytes hk hl,
    fun id gohouse hg => (getHouse_consistent stub hc id gohouse hg).1,
    fun id key bytes hk hl => ⟨⟨id⟩, owner_record_consistent stub hc id key bytes hk hl, rfl⟩,
    ?_⟩
  intro gohouses hl
  have hsorted := (listHouses_reachable stub hr gohouses hl).2.2
  rw [List.Nodup, List.pairwise_map]
  refine hsorted.imp ?_
  intro a b hab he
  rw [he] at hab
  exact lt_irrefl _ hab

theorem key_record_consistency_witness :
    Reachable stubInOrder ∧
    (GetHouse "2" stubInOrder).1 = .ok house2 ∧ house2.Id = "2" ∧
    (ListHouses stubInOrder).1 = .ok [house1, house2] ∧
    ([house1, house2].map (fun gohouse => gohouse.Id)).Nodup :=
  have hr : Reachable stubInOrder :=
    ⟨[.addOwner alice, .addOwner bob, .addHouse house1, .addHouse house2], by decide⟩
  ⟨hr, by decide, (key_record_consistency stubInOrder hr).2.1 "2" house2 (by decide),
    by decide, (key_record_consistency stubInOrder hr).2.2.2 [house1, house2] (by decide)⟩

/-- C22. Each write touches one key, on every stub: a successful AddOwner(o)
is one write under the Owner key of o.Id, and a successful AddHouse(h) or
UpdateHouse(h) is one write under the House key of h.Id; every other key keeps
its value, so AddOwner changes what GetHouse returns for no id, and AddHouse
and UpdateHouse change what CheckOwner returns for no id and what GetHouse
returns for no id other than h.Id. -/
theorem one_key_written (stub : Stub) :
    (∀ goowner, (AddOwner goowner stub).1 = .ok () →
      ∃ key bytes, ownerKey goowner.Id = .ok key ∧
        (AddOwner goowner stub).2 = { stub with State := insertKV key bytes stub.State } ∧
        (∀ other, other ≠ key →
          (AddOwner goowner stub).2.State.lookup other = stub.State.lookup other) ∧
        (∀ id, (GetHouse id (AddOwner goowner stub).2).1 = (GetHouse id stub).1)) ∧
    (∀ gohouse, (AddHouse gohouse stub).1 = .ok () →
      ∃ key bytes, houseKey gohouse.Id = .ok key ∧
        (AddHouse gohouse stub).2 = { stub with State := insertKV key bytes stub.State } ∧
        (∀ other, other ≠ key →
          (AddHouse gohouse stub).2.State.lookup other = stub.State.lookup other) ∧
        (∀ id, (CheckOwner id (AddHouse gohouse stub).2).1 = (CheckOwner id stub).1) ∧
        (∀ id, id ≠ gohouse.Id →
          (GetHouse id (AddHouse gohouse stub).2).1 = (GetHouse id stub).1)) ∧
    (∀ gohouse, (UpdateHouse gohouse stub).1 = .ok () →
      ∃ key bytes, houseKey gohouse.Id = .ok key ∧
        (UpdateHouse gohouse stub).2 = { stub with State := insertKV key bytes stub.State } ∧
        (∀ other, other ≠ key →
          (UpdateHouse gohouse stub).2.State.lookup other = stub.State.lookup other) ∧
        (∀ id, (CheckOwner id (UpdateHouse gohouse stub).2).1 = (CheckOwner id stub).1) ∧
        (∀ id, id ≠ gohouse.Id →
          (GetHouse id (UpdateHouse gohouse stub).2).1 = (GetHouse id stub).1)) := by
  refine ⟨?_, ?_, ?_⟩
  · intro goowner h
    obtain ⟨key, jsonowner, hk, _, _, hs⟩ := addOwner_ok goowner stub h
    refine ⟨key, jsonowner, hk, hs, ?_, ?_⟩
    · intro other hne
      rw [hs]
      exact lookup_insertKV_ne key other jsonowner stub.State hne
    · intro id
      rw [hs]
      apply getHouse_insert_ne
      rintro hkey hh rfl
      exact ownerKey_ne_houseKey _ _ _ hk hh
  · intro gohouse h
    obtain ⟨key, jsonhouse, hk, _, _, _, hs⟩ := addHouse_ok gohouse stub h
    refine ⟨key, jsonhouse, hk, hs, ?_, ?_, ?_⟩
    · intro other hne
      rw [hs]
      exact lookup_insertKV_ne key other jsonhouse stub.State hne
    · intro id
      rw [hs]
      apply checkOwner_insert_ne
      rintro okey ho rfl
      exact ownerKey_ne_houseKey _ _ _ ho hk
    · intro id hid
      rw [hs]
      apply getHouse_insert_ne
      rintro hkey hh rfl
      exact hid (houseKey_inj _ _ _ hh hk)
  · intro gohouse h
    obtain ⟨key, jsonhouse, hk, _, _, _, hs⟩ := updateHouse_ok gohouse stub h
    refine ⟨key, jsonhouse, hk, hs, ?_, ?_, ?_⟩
    · intro other hne
      rw [hs]
      exact lookup_insertKV_ne key other jsonhouse stub.State hne
    · intro id
      rw [hs]
      apply checkOwner_insert_ne
      rintro okey ho rfl
      exact ownerKey_ne_houseKey _ _ _ ho hk
    · intro id hid
      rw [hs]
      apply getHouse_insert_ne
      rintro hkey hh rfl
      exact hid (houseKey_inj _ _ _ hh hk)

theorem one_key_written_witness :
    (UpdateHouse house1b stubInOrder).1 = .ok () ∧
    (GetHouse "1" stubInOrder).1 = .ok house1 ∧
    (GetHouse "1" (UpdateHouse house1b stubInOrder).2).1 = .ok house1b ∧
    (GetHouse "2" (UpdateHouse house1b stubInOrder).2).1 = (GetHouse "2" stubInOrder).1 ∧
    (GetHouse "2" stubInOrder).1 = .ok house2 :=
  ⟨by decide, by decide, by decide,
    by
      obtain ⟨_, _, _, _, _, _, h⟩ := (one_key_written stubInOrder).2.2 house1b (by decide)
      exact h "2" (by decide),
    by decide⟩

/-- C23. TransferHouse is idempotent on reachable stubs: if
TransferHouse(houseId, newOwnerId) succeeds on a stub reachable from the empty
ledger, then the same call on the stub it leaves behind succeeds and leaves
that stub as it is, so GetHouse(houseId) and every other query return what they
returned after the first call; and when newOwnerId already is the owner of the
House, the first call leaves the stub as it was. -/
theorem transferHouse_idempotent (stub : Stub) (hr : Reachable stub)
    (houseId newownerId : String)
    (h : (TransferHouse houseId newownerId stub).1 = .ok ()) :
    (TransferHouse houseId newownerId (TransferHouse houseId newownerId stub).2).1 = .ok () ∧
    (TransferHouse houseId newownerId (TransferHouse houseId newownerId stub).2).2
      = (TransferHouse houseId newownerId stub).2 ∧
    GetHouse houseId (TransferHouse houseId newownerId
        (TransferHouse houseId newownerId stub).2).2
      = GetHouse houseId (TransferHouse houseId newownerId stub).2 ∧
    (∀ current, (GetHouse houseId stub).1 = .ok current → current.OwnerId = newownerId →
      (TransferHouse houseId newownerId stub).2 = stub) := by
  have hc := reachable_consistent stub hr
  have h0 := h
  rw [transferHouse_run] at h0
  cases hg : (GetHouse houseId stub).1 with
  | error err => simp [hg] at h0
  | ok before =>
    simp only [hg] at h0
    have hid := (getHouse_consistent stub hc houseId before hg).1
    subst hid
    have hfirst : (TransferHouse before.Id newownerId stub).2
        = (UpdateHouse { before with OwnerId := newownerId } stub).2 := by
      rw [transferHouse_run, hg]
    have hread := updateHouse_then_getHouse _ stub h0
    have hsecond : TransferHouse before.Id newownerId
        (UpdateHouse { before with OwnerId := newownerId } stub).2
          = (.ok (), (UpdateHouse { before with OwnerId := newownerId } stub).2) := by
      rw [transferHouse_run, hread]
      exact updateHouse_twice _ stub h0
    rw [hfirst, hsecond]
    refine ⟨rfl, rfl, rfl, ?_⟩
    intro current hcur howner
    cases hcur
    have hsame : ({ before with OwnerId := newownerId } : House) = before := by
      cases before
      simp only at howner
      subst howner
      rfl
    rw [hsame] at h0 ⊢
    exact updateHouse_same before stub hr hg h0

theorem transferHouse_idempotent_witness :
    Reachable stubAliceBobHouse1 ∧
    (TransferHouse "1" "Bob" stubAliceBobHouse1).1 = .ok () ∧
    (TransferHouse "1" "Bob" (TransferHouse "1" "Bob" stubAliceBobHouse1).2).1 = .ok () ∧
    (TransferHouse "1" "Bob" (TransferHouse "1" "Bob" stubAliceBobHouse1).2).2
      = (TransferHouse "1" "Bob" stubAliceBobHouse1).2 ∧
    (TransferHouse "1" "Alice" stubAliceBobHouse1).1 = .ok () ∧
    (TransferHouse "1" "Alice" stubAliceBobHouse1).2 = stubAliceBobHouse1 :=
  have hr : Reachable stubAliceBobHouse1 :=
    ⟨[.addOwner alice, .addOwner bob, .addHouse house1], by decide⟩
  ⟨hr, by decide,
    (transferHouse_idempotent stubAliceBobHouse1 hr "1" "Bob" (by decide)).1,
    (transferHouse_idempotent stubAliceBobHouse1 hr "1" "Bob" (by decide)).2.1,
    by decide,
    (transferHouse_idempotent stubAliceBobHouse1 hr "1" "Alice" (by decide)).2.2.2
      house1 (by decide) (by decide)⟩

end HouseContract
